import Mathlib

/-!
Verification development for the Board_Game_Project repository.

The repository contains three iterations of a small ratings CRUD service:

* `puzzles_app.py` — the normalized, database-backed design (tables
  `solvers`, `puzzles`, `ratings` with foreign keys and a unique
  constraint on `(solver_id, puzzle_id)`);
* `Board_Game_App.py` — the in-memory iteration (a `games_by_player`
  dict attached to the app object, plus a startup-computed
  `all_player_games` list);
* `board_game_app.py` — the denormalized database-backed iteration
  (a single `ratings` table keyed by raw `(player, game)` strings,
  whose PATCH/POST/DELETE handlers still operate on the in-memory
  dict of the previous iteration).

Strings are modelled as lists of Unicode code points (`List Nat`); the
Python `str.title()` / `str.capitalize()` case mappings are modelled on
the ASCII letters (the only cased code points appearing in the
repository's data), all other code points being caseless.  Python dicts
are modelled as association lists in insertion order, where assigning to
an existing key overwrites in place and assigning to a fresh key appends
(exactly CPython's dict semantics).  SQLAlchemy queries
`filter_by(...).first()` / `.all()` become `List.find?` / `List.filter`
over row lists kept in insertion order, and the database's primary-key
sequences become explicit `next…Id` counters.
-/

/-! ### Code points and Python case mapping -/

/-- A name (Python `str`) as a list of Unicode code points. -/
abbrev Name := List Nat

/-- ASCII lower-casing of a single code point (Python `str.lower` on ASCII). -/
def toLowerCp (c : Nat) : Nat :=
  if 65 ≤ c ∧ c ≤ 90 then c + 32 else c

/-- ASCII upper-casing of a single code point (Python `str.upper` on ASCII). -/
def toUpperCp (c : Nat) : Nat :=
  if 97 ≤ c ∧ c ≤ 122 then c - 32 else c

/-- Whether a code point is an ASCII letter (a cased character). -/
def isAlphaCp (c : Nat) : Prop :=
  (65 ≤ c ∧ c ≤ 90) ∨ (97 ≤ c ∧ c ≤ 122)

instance (c : Nat) : Decidable (isAlphaCp c) := by
  unfold isAlphaCp; infer_instance

/-- Python `str.capitalize()`: first code point upper-cased, the rest
lower-cased.  This is the canonicalization used throughout
`Board_Game_App.py` and `board_game_app.py`. -/
def pyCapitalize : Name → Name
  | [] => []
  | c :: cs => toUpperCp c :: cs.map toLowerCp

/-- Worker for `pyTitle`; the flag records whether the previous code
point was a cased (alphabetic) character. -/
def pyTitleAux : Bool → Name → Name
  | _, [] => []
  | prevAlpha, c :: cs =>
    (if isAlphaCp c then
       (match prevAlpha with
        | true => toLowerCp c
        | false => toUpperCp c)
     else c)
      :: pyTitleAux (decide (isAlphaCp c)) cs

/-- Python `str.title()`: the first letter of every word upper-cased and
the remaining letters lower-cased, a word boundary being any non-cased
character.  This is the canonicalization used throughout
`puzzles_app.py`. -/
def pyTitle (n : Name) : Name := pyTitleAux false n

/-- Two names are case variants of one another. -/
def lowerEq (n m : Name) : Prop := n.map toLowerCp = m.map toLowerCp

instance (n m : Name) : Decidable (lowerEq n m) := by
  unfold lowerEq; infer_instance
/-! ### Python dict and list primitives -/

/-- Python dict assignment `d[k] = v`: overwrite in place when the key is
present (keeping its position), append otherwise. -/
def dictInsert {α : Type} (k : Name) (v : α) : List (Name × α) → List (Name × α)
  | [] => [(k, v)]
  | (k', v') :: rest =>
    if k' = k then (k, v) :: rest else (k', v') :: dictInsert k v rest

/-- Python dict lookup `d.get(k)`. -/
def dlookup {α : Type} (k : Name) : List (Name × α) → Option α
  | [] => none
  | (k', v') :: rest => if k' = k then some v' else dlookup k rest

/-- Python dict removal `d.pop(k)` (absent keys leave the dict unchanged,
matching the guarded uses in the source). -/
def dictErase {α : Type} (k : Name) : List (Name × α) → List (Name × α)
  | [] => []
  | (k', v') :: rest =>
    if k' = k then rest else (k', v') :: dictErase k rest

/-- `defaultdict(list)` update `d[k].append(v)`. -/
def dictAppend (k : Name) (v : Int) : List (Name × List Int) → List (Name × List Int)
  | [] => [(k, [v])]
  | (k', vs) :: rest =>
    if k' = k then (k', vs ++ [v]) :: rest else (k', vs) :: dictAppend k v rest

/-- Remove the first element satisfying `p` (SQLAlchemy
`session.delete(rows[0])`). -/
def eraseFirst {α : Type} (p : α → Bool) : List α → List α
  | [] => []
  | x :: xs => if p x then xs else x :: eraseFirst p xs

/-- Mutate the first element satisfying `p` in place (SQLAlchemy
`rows[0].field = value`). -/
def replaceFirst {α : Type} (p : α → Bool) (f : α → α) : List α → List α
  | [] => []
  | x :: xs => if p x then f x :: xs else x :: replaceFirst p f xs
/-! ### Outcome types

`Res` models the outcome of one request at the façade boundary: either a
success payload or an `HTTPException(status_code, detail)`.  `Detail`
reifies the distinct detail messages of the source, with the names they
interpolate. -/

inductive Detail where
  | solverNotFound (name : Name)
  | solverNoRatings (name : Name)
  | puzzleNotFound (name : Name)
  | puzzleNeverRated (name : Name)
  | pairNotRated (puzzleName solverName : Name)
  | pairAlreadyRated (puzzleName solverName : Name)
  | playerNotFound (name : Name)
  | gameNotFound (name : Name)
  | gameNotRatedBy (gameName playerName : Name)
  | gameAlreadyRated (gameName playerName : Name)
deriving DecidableEq, Repr

inductive Res (α : Type) where
  | ok (v : α)
  | err (code : Nat) (detail : Detail)
deriving DecidableEq, Repr
namespace Puzzles

/-! ### puzzles_app.py — normalized data model -/

/-- Row of table `puzzles` (class `Puzzle`). -/
structure PuzzleRow where
  id : Nat
  puzzle : Name
deriving DecidableEq, Repr

/-- Row of table `solvers` (class `Solver`). -/
structure SolverRow where
  id : Nat
  solver : Name
deriving DecidableEq, Repr

/-- Row of table `ratings` (class `Rating`), carrying foreign keys to
`solvers` and `puzzles` and subject to
`UniqueConstraint("solver_id", "puzzle_id")`. -/
structure RatingRow where
  id : Nat
  solver_id : Nat
  puzzle_id : Nat
  rating : Int
deriving DecidableEq, Repr

/-- The three tables plus the primary-key sequences. -/
structure PDB where
  puzzles : List PuzzleRow
  solvers : List SolverRow
  ratings : List RatingRow
  nextPuzzleId : Nat
  nextSolverId : Nat
  nextRatingId : Nat
deriving DecidableEq, Repr

/-- `session.query(Puzzle).filter_by(puzzle=name).first()`. -/
def puzzleByName (db : PDB) (n : Name) : Option PuzzleRow :=
  db.puzzles.find? (fun p => decide (p.puzzle = n))

/-- `session.query(Solver).filter_by(solver=name).first()`. -/
def solverByName (db : PDB) (n : Name) : Option SolverRow :=
  db.solvers.find? (fun s => decide (s.solver = n))

/-- The row predicate of `filter_by(solver_id=sid, puzzle_id=pid)`. -/
def pairPred (sid pid : Nat) (r : RatingRow) : Bool :=
  decide (r.solver_id = sid ∧ r.puzzle_id = pid)

/-- `session.query(Rating).filter_by(solver_id=sid, puzzle_id=pid).all()`. -/
def ratingsFor (db : PDB) (sid pid : Nat) : List RatingRow :=
  db.ratings.filter (pairPred sid pid)

/-- `session.query(Rating).filter_by(solver_id=sid).all()`. -/
def solverRatings (db : PDB) (sid : Nat) : List RatingRow :=
  db.ratings.filter (fun r => decide (r.solver_id = sid))

/-- `session.query(Rating).filter_by(puzzle_id=pid).all()`. -/
def puzzleRatings (db : PDB) (pid : Nat) : List RatingRow :=
  db.ratings.filter (fun r => decide (r.puzzle_id = pid))

/-- The ORM relationship `rating.puzzle.puzzle` (resolves the foreign
key; total with a default that the foreign-key invariant makes
unreachable). -/
def puzzleNameOf (db : PDB) (r : RatingRow) : Name :=
  match db.puzzles.find? (fun p => decide (p.id = r.puzzle_id)) with
  | some p => p.puzzle
  | none => []

/-- The ORM relationship `rating.solver.solver`. -/
def solverNameOf (db : PDB) (r : RatingRow) : Name :=
  match db.solvers.find? (fun s => decide (s.id = r.solver_id)) with
  | some s => s.solver
  | none => []

/-! ### puzzles_app.py — API endpoints -/

/-- `GET /api/solvers/{solver_name}` (`get_solver`). -/
def get_solver (solver_name : Name) (db : PDB) : Res (List (Name × Int)) :=
  let sN := pyTitle solver_name
  match solverByName db sN with
  | none => .err 404 (.solverNotFound sN)
  | some s =>
    let rs := solverRatings db s.id
    if rs.isEmpty then .err 404 (.solverNoRatings sN)
    else .ok (rs.foldl (fun acc r => dictInsert (puzzleNameOf db r) r.rating acc) [])

/-- `GET /api/puzzles/` (`get_puzzles`): `defaultdict(list)` keyed by
puzzle name, appending each rating. -/
def get_puzzles (db : PDB) : List (Name × List Int) :=
  db.ratings.foldl (fun acc r => dictAppend (puzzleNameOf db r) r.rating acc) []

/-- `GET /api/puzzles/{puzzle_name}` (`get_puzzle_ratings`). -/
def get_puzzle_ratings (puzzle_name : Name) (db : PDB) : Res (List (Name × Int)) :=
  let pN := pyTitle puzzle_name
  match puzzleByName db pN with
  | none => .err 404 (.puzzleNotFound pN)
  | some p =>
    let rs := puzzleRatings db p.id
    if rs.isEmpty then .err 404 (.puzzleNeverRated pN)
    else .ok (rs.foldl (fun acc r => dictInsert (solverNameOf db r) r.rating acc) [])

/-- `GET /api/puzzles/{puzzle_name}/{solver_name}` (`get_solver_rating`):
checks the solver, then the puzzle, then the pair. -/
def get_solver_rating (puzzle_name solver_name : Name) (db : PDB) : Res Int :=
  let pN := pyTitle puzzle_name
  let sN := pyTitle solver_name
  match solverByName db sN with
  | none => .err 404 (.solverNotFound sN)
  | some s =>
    match puzzleByName db pN with
    | none => .err 404 (.puzzleNotFound pN)
    | some p =>
      match ratingsFor db s.id p.id with
      | [] => .err 404 (.pairNotRated pN sN)
      | r :: _ => .ok r.rating

/-- `PATCH /api/puzzles/{puzzle_name}/{solver_name}`
(`update_solver_rating`): checks the puzzle, then the solver, then the
pair; on success mutates `ratings[0].rating` in place.  Returns the
state the session leaves behind together with the response. -/
def update_solver_rating (puzzle_name solver_name : Name) (rating : Int) (db : PDB) :
    PDB × Res (Name × List (Name × Int)) :=
  let pN := pyTitle puzzle_name
  let sN := pyTitle solver_name
  match puzzleByName db pN with
  | none => (db, .err 404 (.puzzleNotFound pN))
  | some p =>
    match solverByName db sN with
    | none => (db, .err 404 (.solverNotFound sN))
    | some s =>
      match ratingsFor db s.id p.id with
      | [] => (db, .err 404 (.pairNotRated pN sN))
      | _ :: _ =>
        ({ db with
            ratings := replaceFirst (pairPred s.id p.id)
              (fun r => { r with rating := rating }) db.ratings },
         .ok (sN, [(p.puzzle, rating)]))

/-- The query-then-create pattern on the `puzzles` table, shared by
`add_puzzle_rating` and `add_ratings`. -/
def find_or_create_puzzle (n : Name) (db : PDB) : PDB × PuzzleRow :=
  match puzzleByName db n with
  | some p => (db, p)
  | none =>
    let p : PuzzleRow := ⟨db.nextPuzzleId, n⟩
    ({ db with puzzles := db.puzzles ++ [p], nextPuzzleId := db.nextPuzzleId + 1 }, p)

/-- The query-then-create pattern on the `solvers` table. -/
def find_or_create_solver (n : Name) (db : PDB) : PDB × SolverRow :=
  match solverByName db n with
  | some s => (db, s)
  | none =>
    let s : SolverRow := ⟨db.nextSolverId, n⟩
    ({ db with solvers := db.solvers ++ [s], nextSolverId := db.nextSolverId + 1 }, s)

/-- `POST /api/puzzles/{puzzle_name}/{solver_name}` (`add_puzzle_rating`):
finds-or-creates the puzzle row, then the solver row (each committed at
once, so they survive a later rollback), then inserts the rating row;
the table's unique constraint turns a duplicate pair into an
`IntegrityError`, which the handler maps to a 409 after rolling the
rating insert back. -/
def add_puzzle_rating (puzzle_name solver_name : Name) (rating : Int) (db : PDB) :
    PDB × Res (Name × List (Name × Int)) :=
  let pN := pyTitle puzzle_name
  let sN := pyTitle solver_name
  let res1 := find_or_create_puzzle pN db
  let res2 := find_or_create_solver sN res1.1
  if (ratingsFor res2.1 res2.2.id res1.2.id).isEmpty then
    ({ res2.1 with
        ratings := res2.1.ratings ++ [⟨res2.1.nextRatingId, res2.2.id, res1.2.id, rating⟩],
        nextRatingId := res2.1.nextRatingId + 1 },
     .ok (sN, [(res1.2.puzzle, rating)]))
  else
    (res2.1, .err 409 (.pairAlreadyRated pN sN))

/-- `DELETE /api/puzzles/{puzzle_name}/{solver_name}`
(`delete_puzzle_rating`): checks the puzzle, then the solver, then the
pair; on success deletes `ratings[0]`. -/
def delete_puzzle_rating (puzzle_name solver_name : Name) (db : PDB) : PDB × Res Unit :=
  let pN := pyTitle puzzle_name
  let sN := pyTitle solver_name
  match puzzleByName db pN with
  | none => (db, .err 404 (.puzzleNotFound pN))
  | some p =>
    match solverByName db sN with
    | none => (db, .err 404 (.solverNotFound sN))
    | some s =>
      match ratingsFor db s.id p.id with
      | [] => (db, .err 404 (.pairNotRated pN sN))
      | _ :: _ =>
        ({ db with ratings := eraseFirst (pairPred s.id p.id) db.ratings }, .ok ())

/-! ### puzzles_app.py — bulk load -/

/-- One `(puzzle_name, value)` step of the inner loop of `add_ratings`:
find-or-create the puzzle, then upsert the rating for
`(sid, puzzle.id)`. -/
def add_rating_entry (sid : Nat) (puzzle_name : Name) (value : Int) (db : PDB) : PDB :=
  let res := find_or_create_puzzle puzzle_name db
  match ratingsFor res.1 sid res.2.id with
  | [] =>
    { res.1 with
        ratings := res.1.ratings ++ [⟨res.1.nextRatingId, sid, res.2.id, value⟩],
        nextRatingId := res.1.nextRatingId + 1 }
  | _ :: _ =>
    { res.1 with
        ratings := replaceFirst (pairPred sid res.2.id)
          (fun r => { r with rating := value }) res.1.ratings }

/-- One solver block of `add_ratings`: find-or-create the solver, then
process its `{puzzle: rating}` map in order. -/
def add_solver_block (solver_name : Name) (puzzle_ratings : List (Name × Int)) (db : PDB) :
    PDB :=
  let res := find_or_create_solver solver_name db
  puzzle_ratings.foldl (fun d pr => add_rating_entry res.2.id pr.1 pr.2 d) res.1

/-- `add_ratings(puzzles_by_solver, session)`: iterate the
solver → `{puzzle: rating}` mapping; `initialize_ratings_table` is this
plus a commit (which cannot violate the unique constraint, every insert
having been guarded by a query). -/
def add_ratings (puzzles_by_solver : List (Name × List (Name × Int))) (db : PDB) : PDB :=
  puzzles_by_solver.foldl (fun d e => add_solver_block e.1 e.2 d) db

/-- The canonicalization loop of `parse_solvers_file` (after schema
validation): `solver_dict["name"].title()` and the dict comprehension
`{puzzle.title(): rating ...}`. -/
def parse_solvers_records (records : List (Name × List (Name × Int))) :
    List (Name × List (Name × Int)) :=
  records.map (fun e =>
    (pyTitle e.1, e.2.foldl (fun acc pr => dictInsert (pyTitle pr.1) pr.2 acc) []))

/-- `create_puzzles_by_solver`: keyed dict built record by record, a
later record for the same solver replacing the earlier one. -/
def create_puzzles_by_solver (l : List (Name × List (Name × Int))) :
    List (Name × List (Name × Int)) :=
  l.foldl (fun acc e => dictInsert e.1 e.2 acc) []

/-! ### puzzles_app.py — reachable-state invariant -/

/-- Well-formedness of the store: distinct primary keys below their
sequences, the declared unique constraint on `(solver_id, puzzle_id)`,
valid foreign keys, and the app-maintained uniqueness of names within
`puzzles` and `solvers`. -/
structure WF (db : PDB) : Prop where
  puzzleIdsNodup : (db.puzzles.map PuzzleRow.id).Nodup
  solverIdsNodup : (db.solvers.map SolverRow.id).Nodup
  pairsNodup : db.ratings.Pairwise
    (fun a b => ¬(a.solver_id = b.solver_id ∧ a.puzzle_id = b.puzzle_id))
  fkSolver : ∀ r ∈ db.ratings, ∃ s ∈ db.solvers, s.id = r.solver_id
  fkPuzzle : ∀ r ∈ db.ratings, ∃ p ∈ db.puzzles, p.id = r.puzzle_id
  puzzleNamesNodup : (db.puzzles.map PuzzleRow.puzzle).Nodup
  solverNamesNodup : (db.solvers.map SolverRow.solver).Nodup
  puzzleIdsFresh : ∀ p ∈ db.puzzles, p.id < db.nextPuzzleId
  solverIdsFresh : ∀ s ∈ db.solvers, s.id < db.nextSolverId

end Puzzles
namespace BGMem

/-! ### Board_Game_App.py — in-memory iteration

State is the pair of app attributes set by `run`: `games_by_player`
(player → `{game: rating}`) and `all_player_games` (computed once at
startup by `all_games`). -/

structure App where
  games_by_player : List (Name × List (Name × Int))
  all_player_games : List Name
deriving DecidableEq, Repr

/-- `GET /api/players/` (`get_players`). -/
def get_players (st : App) : List (Name × List (Name × Int)) :=
  st.games_by_player

/-- `GET /api/players/{player_name}` (`get_player`). -/
def get_player (player_name : Name) (st : App) : Res (List (Name × Int)) :=
  let p := pyCapitalize player_name
  match dlookup p st.games_by_player with
  | none => .err 404 (.playerNotFound p)
  | some games => .ok games

/-- `GET /api/games/` (`get_games`): returns the startup-computed
`all_player_games` attribute. -/
def get_games (st : App) : List Name :=
  st.all_player_games

/-- `GET /api/games/{game}` (`get_game_ratings`): 404 when the game is
missing from `all_player_games`, else the dict of players currently
rating it. -/
def get_game_ratings (game : Name) (st : App) : Res (List (Name × Int)) :=
  let g := pyCapitalize game
  if g ∈ st.all_player_games then
    .ok (st.games_by_player.foldl
      (fun acc e =>
        match dlookup g e.2 with
        | some v => dictInsert e.1 v acc
        | none => acc) [])
  else .err 404 (.gameNotFound g)

/-- `GET /api/games/{game}/{player_name}` (`get_player_rating`). -/
def get_player_rating (game player_name : Name) (st : App) : Res Int :=
  let g := pyCapitalize game
  let p := pyCapitalize player_name
  match dlookup p st.games_by_player with
  | none => .err 404 (.playerNotFound p)
  | some games =>
    match dlookup g games with
    | none => .err 404 (.gameNotRatedBy g p)
    | some v => .ok v

/-- `PATCH /api/games/{game}/{player_name}` (`update_player_rating`). -/
def update_player_rating (game player_name : Name) (rating : Int) (st : App) :
    App × Res (Name × List (Name × Int)) :=
  let g := pyCapitalize game
  let p := pyCapitalize player_name
  match dlookup p st.games_by_player with
  | none => (st, .err 404 (.playerNotFound p))
  | some games =>
    match dlookup g games with
    | none => (st, .err 404 (.gameNotRatedBy g p))
    | some _ =>
      let games1 := dictInsert g rating games
      ({ st with games_by_player := dictInsert p games1 st.games_by_player },
       .ok (p, games1))

/-- `POST /api/games/{game}/{player_name}` (`add_game_rating`): 409 when
the pair is already rated, otherwise insert (creating the player entry
when needed). -/
def add_game_rating (game player_name : Name) (rating : Int) (st : App) :
    App × Res (Name × List (Name × Int)) :=
  let g := pyCapitalize game
  let p := pyCapitalize player_name
  match dlookup p st.games_by_player with
  | some games =>
    match dlookup g games with
    | some _ => (st, .err 409 (.gameAlreadyRated g p))
    | none =>
      let games1 := dictInsert g rating games
      ({ st with games_by_player := dictInsert p games1 st.games_by_player },
       .ok (p, games1))
  | none =>
    ({ st with games_by_player := dictInsert p [(g, rating)] st.games_by_player },
     .ok (p, [(g, rating)]))

/-- `DELETE /api/games/{game}/{player_name}` (`delete_game_rating`):
pops the game from the player's dict. -/
def delete_game_rating (game player_name : Name) (st : App) :
    App × Res (Name × List (Name × Int)) :=
  let g := pyCapitalize game
  let p := pyCapitalize player_name
  match dlookup p st.games_by_player with
  | none => (st, .err 404 (.playerNotFound p))
  | some games =>
    match dlookup g games with
    | none => (st, .err 404 (.gameNotRatedBy g p))
    | some _ =>
      let games1 := dictErase g games
      ({ st with games_by_player := dictInsert p games1 st.games_by_player },
       .ok (p, games1))

/-- The canonicalization loop of `parse_players_file`
(`person_dict["Name"].capitalize()` and the dict comprehension
`{game.capitalize(): rating ...}`). -/
def parse_players_records (records : List (Name × List (Name × Int))) :
    List (Name × List (Name × Int)) :=
  records.map (fun e =>
    (pyCapitalize e.1, e.2.foldl (fun acc pr => dictInsert (pyCapitalize pr.1) pr.2 acc) []))

/-- `create_games_by_player`. -/
def create_games_by_player (l : List (Name × List (Name × Int))) :
    List (Name × List (Name × Int)) :=
  l.foldl (fun acc e => dictInsert e.1 e.2 acc) []

/-- `all_games`: the deduplicated list of every game appearing in some
player's dict (`list(set(...))`; the set's iteration order is
unspecified in Python, so only membership in the result is meaningful). -/
def all_games (games_by_player : List (Name × List (Name × Int))) : List Name :=
  games_by_player.foldl
    (fun acc e => (e.2.map Prod.fst).foldl
      (fun a g => if g ∈ a then a else a ++ [g]) acc) []

/-- The server branch of `run`: parse, build `games_by_player`, compute
`all_player_games`, attach both to the app. -/
def startup (records : List (Name × List (Name × Int))) : App :=
  let gbp := create_games_by_player (parse_players_records records)
  ⟨gbp, all_games gbp⟩

end BGMem

namespace BGDb

/-! ### board_game_app.py — denormalized database-backed iteration -/

/-- Row of the single `ratings` table (class `Rating`), subject to
`UniqueConstraint("player", "game")`. -/
structure Row where
  id : Nat
  player : Name
  game : Name
  rating : Int
deriving DecidableEq, Repr

structure DB where
  rows : List Row
  nextId : Nat
deriving DecidableEq, Repr

/-- Violation of the `(player, game)` unique constraint between two rows. -/
def rowsConflict (a b : Row) : Bool :=
  decide (a.player = b.player ∧ a.game = b.game)

/-- Whether some pair of rows in the list collides on `(player, game)`. -/
def hasPairDup : List Row → Bool
  | [] => false
  | x :: xs => xs.any (rowsConflict x) || hasPairDup xs

/-- The rows that `initialize_ratings_table` adds to the session, with
ids drawn from the sequence. -/
def pendingRows (games_by_player : List (Name × List (Name × Int))) (start : Nat) :
    List Row :=
  ((games_by_player.foldl
      (fun acc e => acc ++ e.2.map (fun pr => (e.1, pr.1, pr.2))) []).enum).map
    (fun ie => ⟨start + ie.1, ie.2.1, ie.2.2.1, ie.2.2.2⟩)

/-- `initialize_ratings_table`: add every `(player, game, rating)` of the
mapping to the session and commit once; a unique-constraint violation
raises `IntegrityError`, which is caught and printed, so the whole load
is rolled back and the table keeps its prior contents. -/
def init_ratings_table (games_by_player : List (Name × List (Name × Int))) (db : DB) :
    DB :=
  let pending := pendingRows games_by_player db.nextId
  if hasPairDup (db.rows ++ pending) then db
  else { rows := db.rows ++ pending, nextId := db.nextId + pending.length }

/-- `GET /api/players/` (`get_players`): `defaultdict(dict)` over all rows. -/
def get_players (db : DB) : List (Name × List (Name × Int)) :=
  db.rows.foldl
    (fun acc r =>
      let cur := match dlookup r.player acc with
        | some d => d
        | none => []
      dictInsert r.player (dictInsert r.game r.rating cur) acc) []

/-- `GET /api/players/{player_name}` (`get_player`). -/
def get_player (player_name : Name) (db : DB) : Res (List (Name × Int)) :=
  let p := pyCapitalize player_name
  let prs := db.rows.filter (fun r => decide (r.player = p))
  if prs.isEmpty then .err 404 (.playerNotFound p)
  else .ok (prs.foldl (fun acc r => dictInsert r.game r.rating acc) [])

/-- `GET /api/games/` (`get_games`): `SELECT DISTINCT game` (returned
here in first-occurrence order). -/
def get_games (db : DB) : List Name :=
  db.rows.foldl (fun acc r => if r.game ∈ acc then acc else acc ++ [r.game]) []

/-- `GET /api/games/{game}` (`get_game_ratings`). -/
def get_game_ratings (game : Name) (db : DB) : Res (List (Name × Int)) :=
  let g := pyCapitalize game
  let grs := db.rows.filter (fun r => decide (r.game = g))
  if grs.isEmpty then .err 404 (.gameNotFound g)
  else .ok (grs.foldl (fun acc r => dictInsert r.player r.rating acc) [])

/-- `GET /api/games/{game}/{player_name}` (`get_player_rating`). -/
def get_player_rating (game player_name : Name) (db : DB) : Res Int :=
  let g := pyCapitalize game
  let p := pyCapitalize player_name
  match db.rows.filter (fun r => decide (r.game = g ∧ r.player = p)) with
  | [] => .err 404 (.gameNotRatedBy g p)
  | r :: _ => .ok r.rating

/-- Mutation outcome: a success payload, an `HTTPException`, or the
`AttributeError` raised when the handler touches the never-initialized
`app.games_by_player` attribute. -/
inductive MRes (α : Type) where
  | ok (v : α)
  | err (code : Nat) (detail : Detail)
  | attrError
deriving DecidableEq, Repr

/-- Server state: the engine-backed table plus the optional
`games_by_player` attribute (`none` = attribute was never assigned). -/
structure Srv where
  db : DB
  games_by_player : Option (List (Name × List (Name × Int)))
deriving DecidableEq, Repr

/-- The server branch of `run`: loads the table into the engine and
starts serving; it assigns `app.engine` but never assigns
`app.games_by_player`. -/
def run (games_by_player_input : List (Name × List (Name × Int))) (db : DB) : Srv :=
  ⟨init_ratings_table games_by_player_input db, none⟩

/-- `PATCH /api/games/{game}/{player_name}` (`update_player_rating`):
reads and writes only `app.games_by_player`; issues no statement against
the table. -/
def update_player_rating (game player_name : Name) (rating : Int) (st : Srv) :
    Srv × MRes (Name × List (Name × Int)) :=
  let g := pyCapitalize game
  let p := pyCapitalize player_name
  match st.games_by_player with
  | none => (st, .attrError)
  | some gbp =>
    match dlookup p gbp with
    | none => (st, .err 404 (.playerNotFound p))
    | some games =>
      match dlookup g games with
      | none => (st, .err 404 (.gameNotRatedBy g p))
      | some _ =>
        let games1 := dictInsert g rating games
        ({ st with games_by_player := some (dictInsert p games1 gbp) },
         .ok (p, games1))

/-- `POST /api/games/{game}/{player_name}` (`add_game_rating`): same
dict-only logic as the previous iteration. -/
def add_game_rating (game player_name : Name) (rating : Int) (st : Srv) :
    Srv × MRes (Name × List (Name × Int)) :=
  let g := pyCapitalize game
  let p := pyCapitalize player_name
  match st.games_by_player with
  | none => (st, .attrError)
  | some gbp =>
    match dlookup p gbp with
    | some games =>
      match dlookup g games with
      | some _ => (st, .err 409 (.gameAlreadyRated g p))
      | none =>
        let games1 := dictInsert g rating games
        ({ st with games_by_player := some (dictInsert p games1 gbp) },
         .ok (p, games1))
    | none =>
      ({ st with games_by_player := some (dictInsert p [(g, rating)] gbp) },
       .ok (p, [(g, rating)]))

/-- `DELETE /api/games/{game}/{player_name}` (`delete_game_rating`). -/
def delete_game_rating (game player_name : Name) (st : Srv) :
    Srv × MRes (Name × List (Name × Int)) :=
  let g := pyCapitalize game
  let p := pyCapitalize player_name
  match st.games_by_player with
  | none => (st, .attrError)
  | some gbp =>
    match dlookup p gbp with
    | none => (st, .err 404 (.playerNotFound p))
    | some games =>
      match dlookup g games with
      | none => (st, .err 404 (.gameNotRatedBy g p))
      | some _ =>
        let games1 := dictErase g games
        ({ st with games_by_player := some (dictInsert p games1 gbp) },
         .ok (p, games1))

end BGDb



/-- The rating rows the façade resolves for a `(puzzle, solver)` name
pair: both names are canonicalized, looked up with `.first()`, and the
pair's rows are fetched — empty whenever either row is missing.  This is
the observable that the PATCH/DELETE existence checks test. -/
def Puzzles.pairRatings (db : Puzzles.PDB) (P S : Name) : List Puzzles.RatingRow :=
  match Puzzles.puzzleByName db (pyTitle P), Puzzles.solverByName db (pyTitle S) with
  | some p, some s => Puzzles.ratingsFor db s.id p.id
  | _, _ => []

/-- All rating rows attached to any solver row bearing the given
(already canonical) name — the "stored ratings of the subject". -/
def Puzzles.solverStoredRatings (db : Puzzles.PDB) (N : Name) : List Puzzles.RatingRow :=
  db.ratings.filter (fun r =>
    (db.solvers.filter (fun s => decide (s.solver = N))).any
      (fun s => decide (s.id = r.solver_id)))

/-- Modelled from the spec: the bulk-ingestion schema file
`ratings_schema.json` is not part of src/; per the spec it requires each
rating to be "an integer within 1–10 inclusive". -/
def schema_rating_ok (v : Int) : Prop := 1 ≤ v ∧ v ≤ 10

/-! ### Concrete data for counterexamples and witnesses -/

/-- "em" -/
def nmEm : Name := [101, 109]

/-- "Em" -/
def nmEmC : Name := [69, 109]

/-- "eM" -/
def nmEM2 : Name := [101, 77]

/-- "mel" -/
def nmMel : Name := [109, 101, 108]

/-- "Mel" -/
def nmMelC : Name := [77, 101, 108]

/-- "hanabi" -/
def nmHanabi : Name := [104, 97, 110, 97, 98, 105]

/-- "Hanabi" -/
def nmHanabiC : Name := [72, 97, 110, 97, 98, 105]

/-- "em k" — a two-word name. -/
def nmEmK : Name := [101, 109, 32, 107]

/-- The empty normalized store. -/
def pdb0 : Puzzles.PDB := ⟨[], [], [], 0, 0, 0⟩

/-- A normalized store holding the single rating Em → Hanabi → 8. -/
def pdb1 : Puzzles.PDB :=
  ⟨[⟨0, nmHanabiC⟩], [⟨0, nmEmC⟩], [⟨0, 0, 0, 8⟩], 1, 1, 1⟩

/-- The store produced by a successful `add_puzzle_rating nmHanabi nmEm 6`
on the empty store. -/
def c1db : Puzzles.PDB :=
  ⟨[⟨0, nmHanabiC⟩], [⟨0, nmEmC⟩], [⟨0, 0, 0, 6⟩], 1, 1, 1⟩

/-- The in-memory state produced by a successful
`add_game_rating nmHanabi nmEm 6` on the empty state. -/
def c1st : BGMem.App := ⟨[(nmEmC, [(nmHanabiC, 6)])], []⟩

/-- `Board_Game_App` state after startup on
`[{"Name": "em", "Games": {"hanabi": 8}}]`. -/
def c6st : BGMem.App := BGMem.startup [(nmEm, [(nmHanabi, 8)])]

/-- The same state after `delete_game_rating("hanabi", "em")`. -/
def c6st1 : BGMem.App := (BGMem.delete_game_rating nmHanabi nmEm c6st).1

/-! ### Theorems -/

theorem toLowerCp_toLowerCp (c : Nat) : toLowerCp (toLowerCp c) = toLowerCp c := by
  unfold toLowerCp
  split_ifs <;> omega

theorem toUpperCp_toUpperCp (c : Nat) : toUpperCp (toUpperCp c) = toUpperCp c := by
  unfold toUpperCp
  split_ifs <;> omega

theorem isAlphaCp_toLowerCp (c : Nat) : isAlphaCp (toLowerCp c) ↔ isAlphaCp c := by
  unfold isAlphaCp toLowerCp
  split_ifs <;> omega

theorem isAlphaCp_toUpperCp (c : Nat) : isAlphaCp (toUpperCp c) ↔ isAlphaCp c := by
  unfold isAlphaCp toUpperCp
  split_ifs <;> omega

theorem toUpperCp_eq_of_toLowerCp_eq {c d : Nat} (h : toLowerCp c = toLowerCp d) :
    toUpperCp c = toUpperCp d := by
  unfold toLowerCp at h
  unfold toUpperCp
  split_ifs at h ⊢ <;> omega

theorem isAlphaCp_iff_of_toLowerCp_eq {c d : Nat} (h : toLowerCp c = toLowerCp d) :
    (isAlphaCp c ↔ isAlphaCp d) := by
  unfold toLowerCp at h
  unfold isAlphaCp
  split_ifs at h <;> omega

theorem eq_of_toLowerCp_eq_of_not_alpha {c d : Nat} (h : toLowerCp c = toLowerCp d)
    (hc : ¬ isAlphaCp c) : c = d := by
  unfold toLowerCp at h
  unfold isAlphaCp at hc
  split_ifs at h <;> omega

/-- `pyCapitalize` is idempotent. -/
theorem pyCapitalize_pyCapitalize (n : Name) :
    pyCapitalize (pyCapitalize n) = pyCapitalize n := by
  cases n with
  | nil => rfl
  | cons c cs =>
    simp only [pyCapitalize, toUpperCp_toUpperCp, List.map_map, List.cons.injEq, true_and]
    exact List.map_congr_left fun x _ => toLowerCp_toLowerCp x

/-- `pyCapitalize` maps case variants of a name to the same result. -/
theorem pyCapitalize_of_lowerEq {n m : Name} (h : lowerEq n m) :
    pyCapitalize n = pyCapitalize m := by
  unfold lowerEq at h
  cases n with
  | nil =>
    cases m with
    | nil => rfl
    | cons d ds => simp at h
  | cons c cs =>
    cases m with
    | nil => simp at h
    | cons d ds =>
      simp only [List.map_cons, List.cons.injEq] at h
      obtain ⟨h1, h2⟩ := h
      simp only [pyCapitalize, List.cons.injEq]
      refine ⟨toUpperCp_eq_of_toLowerCp_eq h1, ?_⟩
      calc cs.map toLowerCp
          = (cs.map toLowerCp).map toLowerCp := by
            rw [List.map_map]
            exact (List.map_congr_left fun x _ => (toLowerCp_toLowerCp x).symm)
        _ = (ds.map toLowerCp).map toLowerCp := by rw [h2]
        _ = ds.map toLowerCp := by
            rw [List.map_map]
            exact List.map_congr_left fun x _ => toLowerCp_toLowerCp x

theorem pyTitleAux_cons_alpha_false {c : Nat} (hc : isAlphaCp c) (cs : Name) :
    pyTitleAux false (c :: cs) = toUpperCp c :: pyTitleAux true cs := by
  simp only [pyTitleAux, if_pos hc, decide_eq_true hc]

theorem pyTitleAux_cons_alpha_true {c : Nat} (hc : isAlphaCp c) (cs : Name) :
    pyTitleAux true (c :: cs) = toLowerCp c :: pyTitleAux true cs := by
  simp only [pyTitleAux, if_pos hc, decide_eq_true hc]

theorem pyTitleAux_cons_not_alpha {c : Nat} (hc : ¬ isAlphaCp c) (b : Bool) (cs : Name) :
    pyTitleAux b (c :: cs) = c :: pyTitleAux false cs := by
  cases b <;> simp only [pyTitleAux, if_neg hc, decide_eq_false hc]

theorem pyTitleAux_pyTitleAux (n : Name) :
    ∀ b : Bool, pyTitleAux b (pyTitleAux b n) = pyTitleAux b n := by
  induction n with
  | nil => intro b; cases b <;> rfl
  | cons c cs ih =>
    intro b
    by_cases hc : isAlphaCp c
    · cases b with
      | false =>
        rw [pyTitleAux_cons_alpha_false hc,
          pyTitleAux_cons_alpha_false ((isAlphaCp_toUpperCp c).mpr hc),
          toUpperCp_toUpperCp, ih true]
      | true =>
        rw [pyTitleAux_cons_alpha_true hc,
          pyTitleAux_cons_alpha_true ((isAlphaCp_toLowerCp c).mpr hc),
          toLowerCp_toLowerCp, ih true]
    · rw [pyTitleAux_cons_not_alpha hc, pyTitleAux_cons_not_alpha hc, ih false]

/-- `pyTitle` is idempotent. -/
theorem pyTitle_pyTitle (n : Name) : pyTitle (pyTitle n) = pyTitle n :=
  pyTitleAux_pyTitleAux n false

theorem pyTitleAux_of_lowerEq {n m : Name} (h : lowerEq n m) :
    ∀ b : Bool, pyTitleAux b n = pyTitleAux b m := by
  unfold lowerEq at h
  induction n generalizing m with
  | nil =>
    cases m with
    | nil => intro b; exact rfl
    | cons d ds => simp at h
  | cons c cs ih =>
    cases m with
    | nil => simp at h
    | cons d ds =>
      simp only [List.map_cons, List.cons.injEq] at h
      obtain ⟨h1, h2⟩ := h
      intro b
      by_cases hc : isAlphaCp c
      · have hd : isAlphaCp d := (isAlphaCp_iff_of_toLowerCp_eq h1).mp hc
        cases b with
        | false =>
          rw [pyTitleAux_cons_alpha_false hc, pyTitleAux_cons_alpha_false hd,
            toUpperCp_eq_of_toLowerCp_eq h1, ih h2 true]
        | true =>
          rw [pyTitleAux_cons_alpha_true hc, pyTitleAux_cons_alpha_true hd, h1, ih h2 true]
      · have hd : ¬ isAlphaCp d := by
          intro hx
          exact hc ((isAlphaCp_iff_of_toLowerCp_eq h1).mpr hx)
        have hcd : c = d := eq_of_toLowerCp_eq_of_not_alpha h1 hc
        subst hcd
        rw [pyTitleAux_cons_not_alpha hc, pyTitleAux_cons_not_alpha hc, ih h2 false]

/-- `pyTitle` maps case variants of a name to the same result. -/
theorem pyTitle_of_lowerEq {n m : Name} (h : lowerEq n m) : pyTitle n = pyTitle m :=
  pyTitleAux_of_lowerEq h false
theorem dlookup_dictInsert_self {α : Type} (k : Name) (v : α) (l : List (Name × α)) :
    dlookup k (dictInsert k v l) = some v := by
  induction l with
  | nil => simp [dictInsert, dlookup]
  | cons e rest ih =>
    obtain ⟨k', v'⟩ := e
    by_cases h : k' = k
    · simp [dictInsert, dlookup, h]
    · simp [dictInsert, dlookup, h, ih]

theorem dlookup_dictInsert_ne {α : Type} {k k' : Name} (h : k' ≠ k) (v : α)
    (l : List (Name × α)) : dlookup k' (dictInsert k v l) = dlookup k' l := by
  induction l with
  | nil => simp [dictInsert, dlookup, Ne.symm h]
  | cons e rest ih =>
    obtain ⟨k₀, v₀⟩ := e
    by_cases h0 : k₀ = k
    · subst h0
      simp [dictInsert, dlookup, Ne.symm h]
    · by_cases h1 : k₀ = k'
      · subst h1
        simp [dictInsert, dlookup, h0]
      · simp [dictInsert, dlookup, h0, h1, ih]
/-! ### Generic list lemmas for the query primitives -/

theorem find?_eq_some_of_mem_of_nodup_key {α β : Type} [DecidableEq β] (key : α → β)
    {l : List α} (hnd : (l.map key).Nodup) {x : α} (hx : x ∈ l) :
    l.find? (fun a => decide (key a = key x)) = some x := by
  induction l with
  | nil => cases hx
  | cons y ys ih =>
    simp only [List.map_cons, List.nodup_cons] at hnd
    by_cases hk : key y = key x
    · have hxy : x = y := by
        rcases List.mem_cons.mp hx with h | h
        · exact h
        · exact absurd (hk ▸ List.mem_map_of_mem key h) hnd.1
      subst hxy
      simp [List.find?_cons, hk]
    · have hxy : x ∈ ys := by
        rcases List.mem_cons.mp hx with h | h
        · exact absurd (h ▸ rfl) hk
        · exact h
      simp only [List.find?_cons, decide_eq_false hk]
      exact ih hnd.2 hxy

theorem keys_not_mem_imp_dictInsert_append {α : Type} {k : Name} (v : α)
    {l : List (Name × α)} (h : ∀ e ∈ l, e.1 ≠ k) :
    dictInsert k v l = l ++ [(k, v)] := by
  induction l with
  | nil => rfl
  | cons e rest ih =>
    obtain ⟨k', v'⟩ := e
    have hk : k' ≠ k := h (k', v') (List.mem_cons_self _ _)
    simp only [dictInsert, if_neg hk, List.cons_append, List.cons.injEq, true_and]
    exact ih fun e he => h e (List.mem_cons_of_mem _ he)

theorem foldl_dictInsert_of_nodup {α β : Type} (key : β → Name) (val : β → α)
    {rs : List β} (hnd : (rs.map key).Nodup) :
    ∀ acc : List (Name × α), (∀ r ∈ rs, ∀ e ∈ acc, e.1 ≠ key r) →
      rs.foldl (fun a r => dictInsert (key r) (val r) a) acc
        = acc ++ rs.map (fun r => (key r, val r)) := by
  induction rs with
  | nil => intro acc _; simp
  | cons r rest ih =>
    intro acc hdisj
    simp only [List.map_cons, List.nodup_cons] at hnd
    simp only [List.foldl_cons, List.map_cons]
    rw [keys_not_mem_imp_dictInsert_append (val r)
      (fun e he => hdisj r (List.mem_cons_self _ _) e he)]
    rw [ih hnd.2]
    · simp
    · intro r' hr' e he
      rcases List.mem_append.mp he with h | h
      · exact hdisj r' (List.mem_cons_of_mem _ hr') e h
      · simp only [List.mem_singleton] at h
        subst h
        intro hx
        apply hnd.1
        rw [show key r = key r' from hx]
        exact List.mem_map_of_mem key hr'

theorem mem_keys_dictAppend {k N : Name} {v : Int} {l : List (Name × List Int)} :
    N ∈ (dictAppend k v l).map Prod.fst ↔ N = k ∨ N ∈ l.map Prod.fst := by
  induction l with
  | nil => simp [dictAppend]
  | cons e rest ih =>
    obtain ⟨k', vs⟩ := e
    by_cases h : k' = k
    · subst h
      rw [show dictAppend k' v ((k', vs) :: rest) = (k', vs ++ [v]) :: rest from by
        simp [dictAppend]]
      simp only [List.map_cons, List.mem_cons]
      tauto
    · simp only [dictAppend, if_neg h, List.map_cons, List.mem_cons, ih]
      tauto

theorem mem_keys_foldl_dictAppend (key : Puzzles.RatingRow → Name)
    (val : Puzzles.RatingRow → Int) (rs : List Puzzles.RatingRow) (N : Name) :
    ∀ acc : List (Name × List Int),
      (N ∈ (rs.foldl (fun a r => dictAppend (key r) (val r) a) acc).map Prod.fst
        ↔ N ∈ acc.map Prod.fst ∨ ∃ r ∈ rs, key r = N) := by
  induction rs with
  | nil => intro acc; simp
  | cons r rest ih =>
    intro acc
    simp only [List.foldl_cons, ih, mem_keys_dictAppend, List.mem_cons]
    constructor
    · rintro (⟨h | h⟩ | ⟨r', hr', hk⟩)
      · exact Or.inr ⟨r, Or.inl rfl, h.symm⟩
      · exact Or.inl h
      · exact Or.inr ⟨r', Or.inr hr', hk⟩
    · rintro (h | ⟨r', hr' | hr', hk⟩)
      · exact Or.inl (Or.inr h)
      · exact Or.inl (Or.inl (hr' ▸ hk.symm))
      · exact Or.inr ⟨r', hr', hk⟩

theorem filter_eraseFirst_self {α : Type} (p : α → Bool) (l : List α) :
    (eraseFirst p l).filter p = (l.filter p).tail := by
  induction l with
  | nil => rfl
  | cons x xs ih =>
    by_cases h : p x
    · simp [eraseFirst, List.filter_cons, h]
    · simp [eraseFirst, List.filter_cons, h, ih]

theorem filter_eraseFirst_of_disjoint {α : Type} {p q : α → Bool}
    (h : ∀ x, p x = true → q x = false) (l : List α) :
    (eraseFirst p l).filter q = l.filter q := by
  induction l with
  | nil => rfl
  | cons x xs ih =>
    by_cases hx : p x
    · simp [eraseFirst, hx, List.filter_cons, h x hx]
    · simp [eraseFirst, hx, List.filter_cons]
      by_cases hq : q x <;> simp [hq, ih]

theorem filter_replaceFirst_of_disjoint {α : Type} {p q : α → Bool} {f : α → α}
    (h : ∀ x, p x = true → q x = false ∧ q (f x) = false) (l : List α) :
    (replaceFirst p f l).filter q = l.filter q := by
  induction l with
  | nil => rfl
  | cons x xs ih =>
    by_cases hx : p x
    · simp [replaceFirst, hx, List.filter_cons, (h x hx).1, (h x hx).2]
    · simp only [replaceFirst, if_neg hx, List.filter_cons]
      by_cases hq : q x <;> simp [hq, ih]

theorem filter_replaceFirst_self {α : Type} {p : α → Bool} {f : α → α}
    (hf : ∀ x, p (f x) = p x) (l : List α) :
    (replaceFirst p f l).filter p
      = match l.filter p with
        | [] => []
        | x :: rest => f x :: rest := by
  induction l with
  | nil => rfl
  | cons x xs ih =>
    by_cases hx : p x
    · simp [replaceFirst, hx, List.filter_cons, hf x]
    · simp [replaceFirst, hx, List.filter_cons, ih]

theorem filter_length_le_one_of_pairwise {α : Type} {R : α → α → Prop} {p : α → Bool}
    {l : List α} (hp : l.Pairwise R) (h : ∀ a b, p a = true → p b = true → ¬ R a b) :
    (l.filter p).length ≤ 1 := by
  induction l with
  | nil => simp
  | cons x xs ih =>
    rcases List.pairwise_cons.mp hp with ⟨hx, hxs⟩
    by_cases hpx : p x
    · have hnil : xs.filter p = [] := by
        rw [List.filter_eq_nil_iff]
        intro a ha hpa
        exact h x a hpx hpa (hx a ha)
      simp [List.filter_cons, hpx, hnil]
    · simp only [List.filter_cons, hpx]
      simp only [Bool.false_eq_true, if_false]
      exact ih hxs
namespace Puzzles

/-! ### Consequences of well-formedness -/

theorem mem_ratingsFor {db : PDB} {sid pid : Nat} {r : RatingRow} :
    r ∈ ratingsFor db sid pid ↔ r ∈ db.ratings ∧ r.solver_id = sid ∧ r.puzzle_id = pid := by
  simp [ratingsFor, pairPred, List.mem_filter, decide_eq_true_eq]

theorem mem_solverRatings {db : PDB} {sid : Nat} {r : RatingRow} :
    r ∈ solverRatings db sid ↔ r ∈ db.ratings ∧ r.solver_id = sid := by
  simp [solverRatings, List.mem_filter, decide_eq_true_eq]

theorem mem_puzzleRatings {db : PDB} {pid : Nat} {r : RatingRow} :
    r ∈ puzzleRatings db pid ↔ r ∈ db.ratings ∧ r.puzzle_id = pid := by
  simp [puzzleRatings, List.mem_filter, decide_eq_true_eq]

theorem ratingsFor_length_le_one {db : PDB} (h : WF db) (sid pid : Nat) :
    (ratingsFor db sid pid).length ≤ 1 := by
  refine filter_length_le_one_of_pairwise h.pairsNodup ?_
  intro a b ha hb
  simp only [pairPred, decide_eq_true_eq] at ha hb
  intro hR
  exact hR ⟨ha.1.trans hb.1.symm, ha.2.trans hb.2.symm⟩

theorem ratingsFor_tail_nil {db : PDB} (h : WF db) {sid pid : Nat} {r : RatingRow}
    {rest : List RatingRow} (hr : ratingsFor db sid pid = r :: rest) : rest = [] := by
  have hle := ratingsFor_length_le_one h sid pid
  rw [hr] at hle
  simp only [List.length_cons] at hle
  have : rest.length = 0 := by omega
  exact List.length_eq_zero.mp this

theorem solverByName_spec {db : PDB} {n : Name} {s : SolverRow}
    (h : solverByName db n = some s) : s ∈ db.solvers ∧ s.solver = n := by
  refine ⟨List.mem_of_find?_eq_some h, ?_⟩
  have := List.find?_some h
  simpa [decide_eq_true_eq] using this

theorem puzzleByName_spec {db : PDB} {n : Name} {p : PuzzleRow}
    (h : puzzleByName db n = some p) : p ∈ db.puzzles ∧ p.puzzle = n := by
  refine ⟨List.mem_of_find?_eq_some h, ?_⟩
  have := List.find?_some h
  simpa [decide_eq_true_eq] using this

theorem solverByName_eq_some_of_mem {db : PDB} (h : WF db) {s : SolverRow}
    (hs : s ∈ db.solvers) : solverByName db s.solver = some s :=
  find?_eq_some_of_mem_of_nodup_key SolverRow.solver h.solverNamesNodup hs

theorem puzzleByName_eq_some_of_mem {db : PDB} (h : WF db) {p : PuzzleRow}
    (hp : p ∈ db.puzzles) : puzzleByName db p.puzzle = some p :=
  find?_eq_some_of_mem_of_nodup_key PuzzleRow.puzzle h.puzzleNamesNodup hp

theorem puzzleNameOf_spec {db : PDB} (h : WF db) {r : RatingRow} (hr : r ∈ db.ratings) :
    ∃ p ∈ db.puzzles, p.id = r.puzzle_id ∧ puzzleNameOf db r = p.puzzle := by
  obtain ⟨p, hp, hid⟩ := h.fkPuzzle r hr
  refine ⟨p, hp, hid, ?_⟩
  unfold puzzleNameOf
  have hf : db.puzzles.find? (fun a => decide (a.id = r.puzzle_id)) = some p := by
    have hfind := find?_eq_some_of_mem_of_nodup_key PuzzleRow.id h.puzzleIdsNodup hp
    rw [hid] at hfind
    exact hfind
  rw [hf]

theorem solverNameOf_spec {db : PDB} (h : WF db) {r : RatingRow} (hr : r ∈ db.ratings) :
    ∃ s ∈ db.solvers, s.id = r.solver_id ∧ solverNameOf db r = s.solver := by
  obtain ⟨s, hs, hid⟩ := h.fkSolver r hr
  refine ⟨s, hs, hid, ?_⟩
  unfold solverNameOf
  have hf : db.solvers.find? (fun a => decide (a.id = r.solver_id)) = some s := by
    have hfind := find?_eq_some_of_mem_of_nodup_key SolverRow.id h.solverIdsNodup hs
    rw [hid] at hfind
    exact hfind
  rw [hf]

theorem puzzleNameOf_inj {db : PDB} (h : WF db) {a b : RatingRow}
    (ha : a ∈ db.ratings) (hb : b ∈ db.ratings) (hne : a.puzzle_id ≠ b.puzzle_id) :
    puzzleNameOf db a ≠ puzzleNameOf db b := by
  obtain ⟨p1, hp1, hid1, hn1⟩ := puzzleNameOf_spec h ha
  obtain ⟨p2, hp2, hid2, hn2⟩ := puzzleNameOf_spec h hb
  rw [hn1, hn2]
  intro hEq
  have hp12 : p1 = p2 :=
    List.inj_on_of_nodup_map h.puzzleNamesNodup hp1 hp2 hEq
  exact hne (hid1 ▸ hid2 ▸ hp12 ▸ rfl)

theorem solverNameOf_inj {db : PDB} (h : WF db) {a b : RatingRow}
    (ha : a ∈ db.ratings) (hb : b ∈ db.ratings) (hne : a.solver_id ≠ b.solver_id) :
    solverNameOf db a ≠ solverNameOf db b := by
  obtain ⟨s1, hs1, hid1, hn1⟩ := solverNameOf_spec h ha
  obtain ⟨s2, hs2, hid2, hn2⟩ := solverNameOf_spec h hb
  rw [hn1, hn2]
  intro hEq
  have hs12 : s1 = s2 :=
    List.inj_on_of_nodup_map h.solverNamesNodup hs1 hs2 hEq
  exact hne (hid1 ▸ hid2 ▸ hs12 ▸ rfl)

/-- Within one solver's ratings, the resolved puzzle names are pairwise
distinct (unique constraint plus uniqueness of puzzle names). -/
theorem nodup_puzzleNames_solverRatings {db : PDB} (h : WF db) (sid : Nat) :
    ((solverRatings db sid).map (puzzleNameOf db)).Nodup := by
  have h1 : (solverRatings db sid).Pairwise
      (fun a b => ¬(a.solver_id = b.solver_id ∧ a.puzzle_id = b.puzzle_id)) :=
    h.pairsNodup.sublist (List.filter_sublist _)
  have h2 : (solverRatings db sid).Pairwise
      (fun a b => puzzleNameOf db a ≠ puzzleNameOf db b) := by
    refine h1.imp_of_mem ?_
    intro a b ha hb hR
    rcases mem_solverRatings.mp ha with ⟨ha', hsa⟩
    rcases mem_solverRatings.mp hb with ⟨hb', hsb⟩
    have hpid : a.puzzle_id ≠ b.puzzle_id := by
      intro hx
      exact hR ⟨hsa.trans hsb.symm, hx⟩
    exact puzzleNameOf_inj h ha' hb' hpid
  exact (List.pairwise_map).mpr h2

/-- Within one puzzle's ratings, the resolved solver names are pairwise
distinct. -/
theorem nodup_solverNames_puzzleRatings {db : PDB} (h : WF db) (pid : Nat) :
    ((puzzleRatings db pid).map (solverNameOf db)).Nodup := by
  have h1 : (puzzleRatings db pid).Pairwise
      (fun a b => ¬(a.solver_id = b.solver_id ∧ a.puzzle_id = b.puzzle_id)) :=
    h.pairsNodup.sublist (List.filter_sublist _)
  have h2 : (puzzleRatings db pid).Pairwise
      (fun a b => solverNameOf db a ≠ solverNameOf db b) := by
    refine h1.imp_of_mem ?_
    intro a b ha hb hR
    rcases mem_puzzleRatings.mp ha with ⟨ha', hpa⟩
    rcases mem_puzzleRatings.mp hb with ⟨hb', hpb⟩
    have hsid : a.solver_id ≠ b.solver_id := by
      intro hx
      exact hR ⟨hx, hpa.trans hpb.symm⟩
    exact solverNameOf_inj h ha' hb' hsid
  exact (List.pairwise_map).mpr h2

end Puzzles

theorem find?_append_of_none {α : Type} {p : α → Bool} {l₁ : List α}
    (h : l₁.find? p = none) (l₂ : List α) : (l₁ ++ l₂).find? p = l₂.find? p := by
  rw [List.find?_append, h, Option.none_or]

namespace Puzzles

theorem focp_finds (n : Name) (db : PDB) :
    puzzleByName (find_or_create_puzzle n db).1 n = some (find_or_create_puzzle n db).2 := by
  unfold find_or_create_puzzle
  rcases h : puzzleByName db n with _ | p
  · simp only []
    unfold puzzleByName at h ⊢
    rw [find?_append_of_none h]
    simp [List.find?_cons]
  · simpa using h

theorem focp_solvers (n : Name) (db : PDB) :
    (find_or_create_puzzle n db).1.solvers = db.solvers := by
  unfold find_or_create_puzzle
  rcases h : puzzleByName db n with _ | p <;> simp

theorem focp_ratings (n : Name) (db : PDB) :
    (find_or_create_puzzle n db).1.ratings = db.ratings := by
  unfold find_or_create_puzzle
  rcases h : puzzleByName db n with _ | p <;> simp

theorem focp_nextSolverId (n : Name) (db : PDB) :
    (find_or_create_puzzle n db).1.nextSolverId = db.nextSolverId := by
  unfold find_or_create_puzzle
  rcases h : puzzleByName db n with _ | p <;> simp

theorem focp_nextRatingId (n : Name) (db : PDB) :
    (find_or_create_puzzle n db).1.nextRatingId = db.nextRatingId := by
  unfold find_or_create_puzzle
  rcases h : puzzleByName db n with _ | p <;> simp

theorem focs_finds (n : Name) (db : PDB) :
    solverByName (find_or_create_solver n db).1 n = some (find_or_create_solver n db).2 := by
  unfold find_or_create_solver
  rcases h : solverByName db n with _ | s
  · simp only []
    unfold solverByName at h ⊢
    rw [find?_append_of_none h]
    simp [List.find?_cons]
  · simpa using h

theorem focs_puzzles (n : Name) (db : PDB) :
    (find_or_create_solver n db).1.puzzles = db.puzzles := by
  unfold find_or_create_solver
  rcases h : solverByName db n with _ | s <;> simp

theorem focs_ratings (n : Name) (db : PDB) :
    (find_or_create_solver n db).1.ratings = db.ratings := by
  unfold find_or_create_solver
  rcases h : solverByName db n with _ | s <;> simp

theorem focs_nextPuzzleId (n : Name) (db : PDB) :
    (find_or_create_solver n db).1.nextPuzzleId = db.nextPuzzleId := by
  unfold find_or_create_solver
  rcases h : solverByName db n with _ | s <;> simp

theorem focs_nextRatingId (n : Name) (db : PDB) :
    (find_or_create_solver n db).1.nextRatingId = db.nextRatingId := by
  unfold find_or_create_solver
  rcases h : solverByName db n with _ | s <;> simp

theorem puzzleByName_of_puzzles_eq {db db' : PDB} (h : db'.puzzles = db.puzzles)
    (n : Name) : puzzleByName db' n = puzzleByName db n := by
  unfold puzzleByName
  rw [h]

theorem solverByName_of_solvers_eq {db db' : PDB} (h : db'.solvers = db.solvers)
    (n : Name) : solverByName db' n = solverByName db n := by
  unfold solverByName
  rw [h]

/-- Characterization of a successful single create: afterwards the pair
resolves to exactly one rating row holding the new score, appended at
the end of the table. -/
theorem add_puzzle_rating_ok_spec {db db1 : PDB} {P S : Name} {x : Int}
    {pay : Name × List (Name × Int)}
    (h : add_puzzle_rating P S x db = (db1, Res.ok pay)) :
    ∃ p s r, puzzleByName db1 (pyTitle P) = some p
      ∧ solverByName db1 (pyTitle S) = some s
      ∧ ratingsFor db1 s.id p.id = [r] ∧ r.rating = x := by
  unfold add_puzzle_rating at h
  set res1 := find_or_create_puzzle (pyTitle P) db with hres1
  set res2 := find_or_create_solver (pyTitle S) res1.1 with hres2
  by_cases hc : (ratingsFor res2.1 res2.2.id res1.2.id).isEmpty
  · rw [if_pos hc] at h
    have hdb : db1 = { res2.1 with
        ratings := res2.1.ratings ++ [⟨res2.1.nextRatingId, res2.2.id, res1.2.id, x⟩],
        nextRatingId := res2.1.nextRatingId + 1 } := by
      have := congrArg Prod.fst h
      simpa using this.symm
    refine ⟨res1.2, res2.2, ⟨res2.1.nextRatingId, res2.2.id, res1.2.id, x⟩, ?_, ?_, ?_, rfl⟩
    · rw [puzzleByName_of_puzzles_eq
        (show db1.puzzles = res1.1.puzzles by rw [hdb]; exact focs_puzzles _ _)]
      exact focp_finds _ _
    · rw [solverByName_of_solvers_eq
        (show db1.solvers = res2.1.solvers by rw [hdb])]
      exact focs_finds _ _
    · have hrat : db1.ratings
          = res2.1.ratings ++ [⟨res2.1.nextRatingId, res2.2.id, res1.2.id, x⟩] := by
        rw [hdb]
      unfold ratingsFor at hc ⊢
      rw [hrat, List.filter_append, List.isEmpty_iff.mp hc]
      simp [pairPred]
  · rw [if_neg hc] at h
    have := congrArg Prod.snd h
    simp at this

end Puzzles

namespace Puzzles

/-- When the pair already resolves to a rating, `add_puzzle_rating`
returns a 409 and leaves the store exactly as it was. -/
theorem add_puzzle_rating_conflict {db : PDB} {P S : Name} (y : Int) {p : PuzzleRow}
    {s : SolverRow} (hp : puzzleByName db (pyTitle P) = some p)
    (hs : solverByName db (pyTitle S) = some s)
    (hr : ratingsFor db s.id p.id ≠ []) :
    add_puzzle_rating P S y db
      = (db, .err 409 (.pairAlreadyRated (pyTitle P) (pyTitle S))) := by
  have h1 : find_or_create_puzzle (pyTitle P) db = (db, p) := by
    unfold find_or_create_puzzle
    rw [hp]
  have h2 : find_or_create_solver (pyTitle S) db = (db, s) := by
    unfold find_or_create_solver
    rw [hs]
  unfold add_puzzle_rating
  simp only [h1, h2]
  rw [if_neg (by simpa [List.isEmpty_iff] using hr)]

/-- When the solver, the puzzle, and the pair all resolve,
`get_solver_rating` returns the first row's score. -/
theorem get_solver_rating_of_pair {db : PDB} {P S : Name} {p : PuzzleRow} {s : SolverRow}
    {r : RatingRow} {rest : List RatingRow}
    (hp : puzzleByName db (pyTitle P) = some p)
    (hs : solverByName db (pyTitle S) = some s)
    (hr : ratingsFor db s.id p.id = r :: rest) :
    get_solver_rating P S db = .ok r.rating := by
  unfold get_solver_rating
  simp only [hs, hp, hr]

end Puzzles

/-- C1: in both single-create endpoints (`add_puzzle_rating` of the
normalized app and `add_game_rating` of the in-memory app), once
`insertRating(S,I,x)` has succeeded, a second `insertRating(S,I,y)`
fails with a 409 Conflict, the store after the failed call is exactly
the store after the first call, and the stored rating for the pair is
still `x`. -/
theorem C1_insert_conflict_preserves_store :
    (∀ (db : Puzzles.PDB) (P S : Name) (x y : Int) (db1 : Puzzles.PDB)
        (pay : Name × List (Name × Int)),
      Puzzles.add_puzzle_rating P S x db = (db1, .ok pay) →
        Puzzles.add_puzzle_rating P S y db1
          = (db1, .err 409 (.pairAlreadyRated (pyTitle P) (pyTitle S)))
        ∧ Puzzles.get_solver_rating P S db1 = .ok x)
  ∧ (∀ (st : BGMem.App) (G Pl : Name) (x y : Int) (st1 : BGMem.App)
        (pay : Name × List (Name × Int)),
      BGMem.add_game_rating G Pl x st = (st1, .ok pay) →
        BGMem.add_game_rating G Pl y st1
          = (st1, .err 409 (.gameAlreadyRated (pyCapitalize G) (pyCapitalize Pl)))
        ∧ BGMem.get_player_rating G Pl st1 = .ok x) := by
  constructor
  · intro db P S x y db1 pay h
    obtain ⟨p, s, r, hp, hs, hr, hx⟩ := Puzzles.add_puzzle_rating_ok_spec h
    refine ⟨Puzzles.add_puzzle_rating_conflict y hp hs (by rw [hr]; simp), ?_⟩
    rw [Puzzles.get_solver_rating_of_pair hp hs hr, hx]
  · intro st G Pl x y st1 pay h
    unfold BGMem.add_game_rating at h ⊢
    rcases hq : dlookup (pyCapitalize Pl) st.games_by_player with _ | games
    · simp only [hq] at h
      have h1 : st1.games_by_player
          = dictInsert (pyCapitalize Pl) [(pyCapitalize G, x)] st.games_by_player := by
        have h0 := congrArg Prod.fst h
        simp only [Prod.fst] at h0
        rw [← h0]
      have hl : dlookup (pyCapitalize Pl) st1.games_by_player
          = some [(pyCapitalize G, x)] := by
        rw [h1]
        exact dlookup_dictInsert_self _ _ _
      have hg : dlookup (pyCapitalize G) [(pyCapitalize G, x)] = some x := by
        simp [dlookup]
      constructor
      · simp only [hl, hg]
      · unfold BGMem.get_player_rating
        simp only [hl, hg]
    · simp only [hq] at h
      rcases hq2 : dlookup (pyCapitalize G) games with _ | v
      · simp only [hq2] at h
        have h1 : st1.games_by_player = dictInsert (pyCapitalize Pl)
            (dictInsert (pyCapitalize G) x games) st.games_by_player := by
          have h0 := congrArg Prod.fst h
          simp only [Prod.fst] at h0
          rw [← h0]
        have hl : dlookup (pyCapitalize Pl) st1.games_by_player
            = some (dictInsert (pyCapitalize G) x games) := by
          rw [h1]
          exact dlookup_dictInsert_self _ _ _
        have hg : dlookup (pyCapitalize G) (dictInsert (pyCapitalize G) x games)
            = some x := dlookup_dictInsert_self _ _ _
        constructor
        · simp only [hl, hg]
        · unfold BGMem.get_player_rating
          simp only [hl, hg]
      · simp only [hq2] at h
        have := congrArg Prod.snd h
        simp at this

/-- Witness for C1 at concrete inputs: Em rates Hanabi 6, a second
insert with 9 conflicts and the stored score stays 6, in both apps. -/
theorem C1_insert_conflict_preserves_store_witness :
    (Puzzles.add_puzzle_rating nmHanabi nmEm 9 c1db
        = (c1db, .err 409 (.pairAlreadyRated (pyTitle nmHanabi) (pyTitle nmEm)))
      ∧ Puzzles.get_solver_rating nmHanabi nmEm c1db = .ok 6)
  ∧ (BGMem.add_game_rating nmHanabi nmEm 9 c1st
        = (c1st, .err 409 (.gameAlreadyRated (pyCapitalize nmHanabi) (pyCapitalize nmEm)))
      ∧ BGMem.get_player_rating nmHanabi nmEm c1st = .ok 6) :=
  ⟨C1_insert_conflict_preserves_store.1 pdb0 nmHanabi nmEm 6 9 c1db
      (nmEmC, [(nmHanabiC, 6)]) (by decide),
   C1_insert_conflict_preserves_store.2 ⟨[], []⟩ nmHanabi nmEm 6 9 c1st
      (nmEmC, [(nmHanabiC, 6)]) (by decide)⟩

namespace Puzzles

theorem focp_of_some {db : PDB} {n : Name} {p : PuzzleRow}
    (h : puzzleByName db n = some p) : find_or_create_puzzle n db = (db, p) := by
  unfold find_or_create_puzzle
  rw [h]

theorem focp_of_none {db : PDB} {n : Name} (h : puzzleByName db n = none) :
    find_or_create_puzzle n db
      = ({ db with
            puzzles := db.puzzles ++ [⟨db.nextPuzzleId, n⟩],
            nextPuzzleId := db.nextPuzzleId + 1 },
         ⟨db.nextPuzzleId, n⟩) := by
  unfold find_or_create_puzzle
  rw [h]

theorem focs_of_some {db : PDB} {n : Name} {s : SolverRow}
    (h : solverByName db n = some s) : find_or_create_solver n db = (db, s) := by
  unfold find_or_create_solver
  rw [h]

theorem focs_of_none {db : PDB} {n : Name} (h : solverByName db n = none) :
    find_or_create_solver n db
      = ({ db with
            solvers := db.solvers ++ [⟨db.nextSolverId, n⟩],
            nextSolverId := db.nextSolverId + 1 },
         ⟨db.nextSolverId, n⟩) := by
  unfold find_or_create_solver
  rw [h]

theorem focp_name (n : Name) (db : PDB) :
    (find_or_create_puzzle n db).2.puzzle = n := by
  rcases h : puzzleByName db n with _ | p
  · rw [focp_of_none h]
  · rw [focp_of_some h]
    exact (puzzleByName_spec h).2

theorem ratingsFor_of_ratings_eq {db db' : PDB} (h : db'.ratings = db.ratings)
    (sid pid : Nat) : ratingsFor db' sid pid = ratingsFor db sid pid := by
  unfold ratingsFor
  rw [h]

/-- No rating row can reference the not-yet-allocated solver id. -/
theorem ratingsFor_fresh_solver {db : PDB} (h : WF db) (pid : Nat) :
    ratingsFor db db.nextSolverId pid = [] := by
  rw [show ratingsFor db db.nextSolverId pid
      = db.ratings.filter (pairPred db.nextSolverId pid) from rfl]
  rw [List.filter_eq_nil_iff]
  intro r hr hpred
  simp only [pairPred, decide_eq_true_eq] at hpred
  obtain ⟨s, hs, hid⟩ := h.fkSolver r hr
  have := h.solverIdsFresh s hs
  omega

/-- No rating row can reference the not-yet-allocated puzzle id. -/
theorem ratingsFor_fresh_puzzle {db : PDB} (h : WF db) (sid : Nat) :
    ratingsFor db sid db.nextPuzzleId = [] := by
  rw [show ratingsFor db sid db.nextPuzzleId
      = db.ratings.filter (pairPred sid db.nextPuzzleId) from rfl]
  rw [List.filter_eq_nil_iff]
  intro r hr hpred
  simp only [pairPred, decide_eq_true_eq] at hpred
  obtain ⟨p, hp, hid⟩ := h.fkPuzzle r hr
  have := h.puzzleIdsFresh p hp
  omega

end Puzzles

/-- C3: `updateRating(S,I,y)` on a pair with no existing rating — the
puzzle missing, the solver missing, or both present but unrated — fails
with a 404 NotFound, and the store returned is exactly the one passed
in (every rating, solver, and puzzle row untouched). -/
theorem C3_update_missing_pair_not_found :
    ∀ (db : Puzzles.PDB) (P S : Name) (y : Int),
      Puzzles.pairRatings db P S = [] →
      ∃ d, Puzzles.update_solver_rating P S y db = (db, .err 404 d) := by
  intro db P S y hmiss
  unfold Puzzles.update_solver_rating
  unfold Puzzles.pairRatings at hmiss
  rcases hp : Puzzles.puzzleByName db (pyTitle P) with _ | p
  · exact ⟨.puzzleNotFound (pyTitle P), by simp only [hp]⟩
  · rcases hs : Puzzles.solverByName db (pyTitle S) with _ | s
    · exact ⟨.solverNotFound (pyTitle S), by simp only [hp, hs]⟩
    · simp only [hp, hs] at hmiss
      exact ⟨.pairNotRated (pyTitle P) (pyTitle S), by simp only [hp, hs, hmiss]⟩

/-- Witness for C3: updating the unrated pair (Mel, Hanabi) in a store
that only holds (Em, Hanabi) 404s and leaves the store untouched. -/
theorem C3_update_missing_pair_not_found_witness :
    ∃ d, Puzzles.update_solver_rating nmHanabi nmMel 5 pdb1 = (pdb1, .err 404 d) :=
  C3_update_missing_pair_not_found pdb1 nmHanabi nmMel 5 (by decide)

namespace Puzzles

/-- On a well-formed store, the duplicate check of `add_puzzle_rating`
passes whenever the pair currently resolves to no rating. -/
theorem add_pair_check_empty {db : PDB} {P S : Name} (hwf : WF db)
    (hmiss : pairRatings db P S = []) :
    ratingsFor (find_or_create_solver (pyTitle S) (find_or_create_puzzle (pyTitle P) db).1).1
      (find_or_create_solver (pyTitle S) (find_or_create_puzzle (pyTitle P) db).1).2.id
      (find_or_create_puzzle (pyTitle P) db).2.id = [] := by
  have hrateq : (find_or_create_solver (pyTitle S)
      (find_or_create_puzzle (pyTitle P) db).1).1.ratings = db.ratings := by
    rw [focs_ratings, focp_ratings]
  rw [ratingsFor_of_ratings_eq hrateq]
  have hsolv : solverByName (find_or_create_puzzle (pyTitle P) db).1 (pyTitle S)
      = solverByName db (pyTitle S) :=
    solverByName_of_solvers_eq (focp_solvers _ _) _
  unfold pairRatings at hmiss
  rcases hp : puzzleByName db (pyTitle P) with _ | p
  · rw [show (find_or_create_puzzle (pyTitle P) db).2.id = db.nextPuzzleId from by
      rw [focp_of_none hp]]
    exact ratingsFor_fresh_puzzle hwf _
  · rcases hs : solverByName db (pyTitle S) with _ | s
    · rw [show (find_or_create_solver (pyTitle S)
          (find_or_create_puzzle (pyTitle P) db).1).2.id = db.nextSolverId from by
        rw [focs_of_none (hsolv.trans hs)]
        exact focp_nextSolverId _ _]
      exact ratingsFor_fresh_solver hwf _
    · rw [show (find_or_create_solver (pyTitle S)
          (find_or_create_puzzle (pyTitle P) db).1).2 = s from by
        rw [focs_of_some (hsolv.trans hs)]]
      rw [show (find_or_create_puzzle (pyTitle P) db).2 = p from by
        rw [focp_of_some hp]]
      simp only [hp, hs] at hmiss
      exact hmiss

/-- On a well-formed store, `add_puzzle_rating` succeeds on a pair with
no rating, whatever the score, and stores exactly that score. -/
theorem add_puzzle_rating_fresh_ok {db : PDB} {P S : Name} (v : Int) (hwf : WF db)
    (hmiss : pairRatings db P S = []) :
    ∃ db1, add_puzzle_rating P S v db = (db1, .ok (pyTitle S, [(pyTitle P, v)]))
      ∧ get_solver_rating P S db1 = .ok v := by
  have hc := add_pair_check_empty hwf hmiss
  have hres : add_puzzle_rating P S v db
      = ((fun res2 res1 =>
            ({ res2 with
                ratings := res2.ratings
                  ++ [⟨res2.nextRatingId,
                       (find_or_create_solver (pyTitle S)
                         (find_or_create_puzzle (pyTitle P) db).1).2.id, res1.id, v⟩],
                nextRatingId := res2.nextRatingId + 1 } : PDB))
          (find_or_create_solver (pyTitle S) (find_or_create_puzzle (pyTitle P) db).1).1
          (find_or_create_puzzle (pyTitle P) db).2,
         .ok (pyTitle S, [((find_or_create_puzzle (pyTitle P) db).2.puzzle, v)])) := by
    unfold add_puzzle_rating
    rw [if_pos (by simp [List.isEmpty_iff, hc])]
  rw [focp_name] at hres
  refine ⟨_, hres, ?_⟩
  obtain ⟨p, s, r, hp, hs, hr, hx⟩ := add_puzzle_rating_ok_spec hres
  rw [get_solver_rating_of_pair hp hs hr, hx]

/-- On a rated pair, `update_solver_rating` succeeds for every score and
stores exactly that score. -/
theorem update_solver_rating_ok {db : PDB} {P S : Name} (v : Int)
    (hr : pairRatings db P S ≠ []) :
    ∃ db1 pay, update_solver_rating P S v db = (db1, .ok pay)
      ∧ get_solver_rating P S db1 = .ok v := by
  unfold pairRatings at hr
  rcases hp : puzzleByName db (pyTitle P) with _ | p
  · rw [hp] at hr
    simp at hr
  · rcases hs : solverByName db (pyTitle S) with _ | s
    · rw [hp, hs] at hr
      simp at hr
    · simp only [hp, hs] at hr
      rcases hrr : ratingsFor db s.id p.id with _ | ⟨r, rest⟩
      · exact absurd hrr hr
      · set db1 : PDB := { db with ratings := replaceFirst (pairPred s.id p.id) (fun x => { x with rating := v }) db.ratings } with hdb1
        refine ⟨db1, (pyTitle S, [(p.puzzle, v)]), ?_, ?_⟩
        · unfold update_solver_rating
          simp only [hp, hs, hrr]
        · have hp1 : puzzleByName db1 (pyTitle P) = some p := hp
          have hs1 : solverByName db1 (pyTitle S) = some s := hs
          have hr1 : ratingsFor db1 s.id p.id = { r with rating := v } :: rest := by
            rw [hdb1]
            show (replaceFirst (pairPred s.id p.id) (fun x => { x with rating := v }) db.ratings).filter (pairPred s.id p.id) = _
            rw [filter_replaceFirst_self (by intro x; simp [pairPred])]
            rw [show db.ratings.filter (pairPred s.id p.id) = r :: rest from hrr]
          rw [get_solver_rating_of_pair hp1 hs1 hr1]

end Puzzles

/-- C8: the direct single-rating mutation endpoints do not validate the
score range — for every integer `v`, `add_puzzle_rating` on a pair with
no rating succeeds and stores `v`, and `update_solver_rating` on a
rated pair succeeds and stores `v`; only the bulk-ingestion schema
constrains the score to 1–10. -/
theorem C8_endpoints_no_score_validation :
    (∀ (db : Puzzles.PDB) (P S : Name) (v : Int), Puzzles.WF db →
      Puzzles.pairRatings db P S = [] →
      ∃ db1, Puzzles.add_puzzle_rating P S v db = (db1, .ok (pyTitle S, [(pyTitle P, v)]))
        ∧ Puzzles.get_solver_rating P S db1 = .ok v)
  ∧ (∀ (db : Puzzles.PDB) (P S : Name) (v : Int),
      Puzzles.pairRatings db P S ≠ [] →
      ∃ db1 pay, Puzzles.update_solver_rating P S v db = (db1, .ok pay)
        ∧ Puzzles.get_solver_rating P S db1 = .ok v)
  ∧ (∀ v : Int, v < 1 ∨ 10 < v → ¬ schema_rating_ok v) := by
  refine ⟨fun db P S v hwf hmiss => Puzzles.add_puzzle_rating_fresh_ok v hwf hmiss,
    fun db P S v hr => Puzzles.update_solver_rating_ok v hr, ?_⟩
  intro v h
  unfold schema_rating_ok
  omega

/-- Witness for C8: score 100 is accepted on create, score −5 on
update, while the bulk schema rejects 0. -/
theorem C8_endpoints_no_score_validation_witness :
    (∃ db1, Puzzles.add_puzzle_rating nmHanabi nmEm 100 pdb0
        = (db1, .ok (pyTitle nmEm, [(pyTitle nmHanabi, 100)]))
      ∧ Puzzles.get_solver_rating nmHanabi nmEm db1 = .ok 100)
  ∧ (∃ db1 pay, Puzzles.update_solver_rating nmHanabi nmEm (-5) pdb1 = (db1, .ok pay)
      ∧ Puzzles.get_solver_rating nmHanabi nmEm db1 = .ok (-5))
  ∧ ¬ schema_rating_ok 0 :=
  ⟨C8_endpoints_no_score_validation.1 pdb0 nmHanabi nmEm 100
      ⟨by decide, by decide, by decide, by decide, by decide, by decide, by decide,
       by decide, by decide⟩ (by decide),
   C8_endpoints_no_score_validation.2.1 pdb1 nmHanabi nmEm (-5) (by decide),
   C8_endpoints_no_score_validation.2.2 0 (by decide)⟩

theorem eraseFirst_length_of_mem {α : Type} {p : α → Bool} {l : List α} {x : α}
    (hx : x ∈ l) (hpx : p x = true) : (eraseFirst p l).length + 1 = l.length := by
  induction l with
  | nil => cases hx
  | cons y ys ih =>
    by_cases hy : p y
    · simp [eraseFirst, hy]
    · have hxy : x ∈ ys := by
        rcases List.mem_cons.mp hx with h | h
        · subst h
          exact absurd hpx hy
        · exact h
      simp only [eraseFirst, hy, Bool.false_eq_true, if_false, List.length_cons]
      rw [← ih hxy]

namespace Puzzles

theorem get_solver_rating_of_empty {db : PDB} {P S : Name} {p : PuzzleRow} {s : SolverRow}
    (hp : puzzleByName db (pyTitle P) = some p)
    (hs : solverByName db (pyTitle S) = some s)
    (hr : ratingsFor db s.id p.id = []) :
    get_solver_rating P S db = .err 404 (.pairNotRated (pyTitle P) (pyTitle S)) := by
  unfold get_solver_rating
  simp only [hs, hp, hr]

end Puzzles

/-- C4: deleting an existing rating removes exactly that rating: the
delete succeeds, a subsequent `ratingOf(S,I)` 404s, the solver and
puzzle rows are untouched, the table shrinks by exactly one row, and
`ratingOf` of every other canonical pair returns exactly what it
returned before. -/
theorem C4_delete_removes_exactly_the_pair :
    ∀ (db : Puzzles.PDB) (P S : Name), Puzzles.WF db →
      Puzzles.pairRatings db P S ≠ [] →
      ∃ db1, Puzzles.delete_puzzle_rating P S db = (db1, .ok ())
        ∧ (∃ d, Puzzles.get_solver_rating P S db1 = .err 404 d)
        ∧ db1.solvers = db.solvers ∧ db1.puzzles = db.puzzles
        ∧ db1.ratings.length + 1 = db.ratings.length
        ∧ ∀ P' S', (pyTitle P', pyTitle S') ≠ (pyTitle P, pyTitle S) →
            Puzzles.get_solver_rating P' S' db1 = Puzzles.get_solver_rating P' S' db := by
  intro db P S hwf hne
  unfold Puzzles.pairRatings at hne
  rcases hp : Puzzles.puzzleByName db (pyTitle P) with _ | p
  · rw [hp] at hne
    simp at hne
  · rcases hs : Puzzles.solverByName db (pyTitle S) with _ | s
    · rw [hp, hs] at hne
      simp at hne
    · simp only [hp, hs] at hne
      rcases hrr : Puzzles.ratingsFor db s.id p.id with _ | ⟨r, rest⟩
      · exact absurd hrr hne
      · have hrest : rest = [] := Puzzles.ratingsFor_tail_nil hwf hrr
        subst hrest
        set db1 : Puzzles.PDB := { db with ratings := eraseFirst (Puzzles.pairPred s.id p.id) db.ratings } with hdb1
        refine ⟨db1, ?_, ?_, rfl, rfl, ?_, ?_⟩
        · unfold Puzzles.delete_puzzle_rating
          simp only [hp, hs, hrr]
        · refine ⟨.pairNotRated (pyTitle P) (pyTitle S), ?_⟩
          have hp1 : Puzzles.puzzleByName db1 (pyTitle P) = some p := hp
          have hs1 : Puzzles.solverByName db1 (pyTitle S) = some s := hs
          have hr1 : Puzzles.ratingsFor db1 s.id p.id = [] := by
            rw [hdb1]
            show (eraseFirst (Puzzles.pairPred s.id p.id) db.ratings).filter (Puzzles.pairPred s.id p.id) = []
            rw [filter_eraseFirst_self]
            rw [show db.ratings.filter (Puzzles.pairPred s.id p.id) = [r] from hrr]
            rfl
          exact Puzzles.get_solver_rating_of_empty hp1 hs1 hr1
        · have hrmem : r ∈ Puzzles.ratingsFor db s.id p.id := by
            rw [hrr]
            exact List.mem_singleton.mpr rfl
          have hrpred : Puzzles.pairPred s.id p.id r = true := by
            rcases Puzzles.mem_ratingsFor.mp hrmem with ⟨-, h1, h2⟩
            simp [Puzzles.pairPred, h1, h2]
          have hrmem' : r ∈ db.ratings := (Puzzles.mem_ratingsFor.mp hrmem).1
          exact eraseFirst_length_of_mem hrmem' hrpred
        · intro P' S' hpair
          unfold Puzzles.get_solver_rating
          have e1 : Puzzles.solverByName db1 (pyTitle S') = Puzzles.solverByName db (pyTitle S') := rfl
          have e2 : Puzzles.puzzleByName db1 (pyTitle P') = Puzzles.puzzleByName db (pyTitle P') := rfl
          rcases hs' : Puzzles.solverByName db (pyTitle S') with _ | s'
          · simp only [e1, hs']
          · rcases hp' : Puzzles.puzzleByName db (pyTitle P') with _ | p'
            · simp only [e1, e2, hs', hp']
            · have hids : ¬(s'.id = s.id ∧ p'.id = p.id) := by
                rintro ⟨hsid, hpid⟩
                have hs'mem := Puzzles.solverByName_spec hs'
                have hsmem := Puzzles.solverByName_spec hs
                have hp'mem := Puzzles.puzzleByName_spec hp'
                have hpmem := Puzzles.puzzleByName_spec hp
                have hseq : s' = s :=
                  List.inj_on_of_nodup_map hwf.solverIdsNodup hs'mem.1 hsmem.1 hsid
                have hpeq : p' = p :=
                  List.inj_on_of_nodup_map hwf.puzzleIdsNodup hp'mem.1 hpmem.1 hpid
                apply hpair
                rw [← hp'mem.2, ← hs'mem.2, hpeq, hseq, hpmem.2, hsmem.2]
              have hfil : Puzzles.ratingsFor db1 s'.id p'.id = Puzzles.ratingsFor db s'.id p'.id := by
                rw [hdb1]
                show (eraseFirst (Puzzles.pairPred s.id p.id) db.ratings).filter (Puzzles.pairPred s'.id p'.id) = _
                refine filter_eraseFirst_of_disjoint ?_ db.ratings
                intro x hx
                simp only [Puzzles.pairPred, decide_eq_true_eq] at hx ⊢
                rw [decide_eq_false_iff_not]
                rintro ⟨ha, hb⟩
                exact hids ⟨by omega, by omega⟩
              simp only [e1, e2, hs', hp', hfil]

/-- Witness for C4 at the concrete store holding only (Em, Hanabi). -/
theorem C4_delete_removes_exactly_the_pair_witness :
    ∃ db1, Puzzles.delete_puzzle_rating nmHanabi nmEm pdb1 = (db1, .ok ())
      ∧ (∃ d, Puzzles.get_solver_rating nmHanabi nmEm db1 = .err 404 d)
      ∧ db1.solvers = pdb1.solvers ∧ db1.puzzles = pdb1.puzzles
      ∧ db1.ratings.length + 1 = pdb1.ratings.length
      ∧ ∀ P' S', (pyTitle P', pyTitle S') ≠ (pyTitle nmHanabi, pyTitle nmEm) →
          Puzzles.get_solver_rating P' S' db1 = Puzzles.get_solver_rating P' S' pdb1 :=
  C4_delete_removes_exactly_the_pair pdb1 nmHanabi nmEm
    ⟨by decide, by decide, by decide, by decide, by decide, by decide, by decide,
     by decide, by decide⟩ (by decide)

namespace Puzzles

/-- Under uniqueness of solver names, the ratings attached to any row
named `N` are exactly the ratings of the row `.first()` finds. -/
theorem solverStoredRatings_eq {db : PDB} (hwf : WF db) {N : Name} {s : SolverRow}
    (hs : solverByName db N = some s) :
    solverStoredRatings db N = solverRatings db s.id := by
  unfold solverStoredRatings solverRatings
  apply List.filter_congr
  intro r _
  have hsmem := solverByName_spec hs
  rw [Bool.eq_iff_iff]
  constructor
  · intro h
    rcases List.any_eq_true.mp h with ⟨s2, hs2, hid⟩
    rcases List.mem_filter.mp hs2 with ⟨hs2mem, hs2name⟩
    simp only [decide_eq_true_eq] at hs2name hid
    have hss : s2 = s := by
      apply List.inj_on_of_nodup_map hwf.solverNamesNodup hs2mem hsmem.1
      rw [hs2name, hsmem.2]
    subst hss
    simp only [decide_eq_true_eq]
    omega
  · intro h
    simp only [decide_eq_true_eq] at h
    apply List.any_eq_true.mpr
    refine ⟨s, List.mem_filter.mpr ⟨hsmem.1, by simp [hsmem.2]⟩, by simp [h]⟩

/-- When no solver row bears the name, the subject has no stored ratings. -/
theorem solverStoredRatings_eq_nil {db : PDB} {N : Name}
    (hs : solverByName db N = none) : solverStoredRatings db N = [] := by
  unfold solverStoredRatings
  rw [List.filter_eq_nil_iff]
  intro r _ h
  rcases List.any_eq_true.mp h with ⟨s2, hs2, -⟩
  rcases List.mem_filter.mp hs2 with ⟨hs2mem, hs2name⟩
  simp only [decide_eq_true_eq] at hs2name
  have := List.find?_eq_none.mp hs s2 hs2mem
  simp [hs2name] at this

end Puzzles

/-- C7: the per-subject GET fails exactly when the canonicalized subject
has zero stored ratings; every failure of the endpoint is a 404, so the
"never existed" and "exists but unrated" branches surface as the same
NotFound status. -/
theorem C7_solver_get_not_found_iff_zero_ratings :
    ∀ (db : Puzzles.PDB) (S : Name), Puzzles.WF db →
      ((∃ d, Puzzles.get_solver S db = .err 404 d)
          ↔ Puzzles.solverStoredRatings db (pyTitle S) = [])
      ∧ (∀ c d, Puzzles.get_solver S db = .err c d → c = 404) := by
  intro db S hwf
  unfold Puzzles.get_solver
  rcases hs : Puzzles.solverByName db (pyTitle S) with _ | s
  · simp only [hs]
    refine ⟨⟨fun _ => Puzzles.solverStoredRatings_eq_nil hs, fun _ => ⟨_, rfl⟩⟩, ?_⟩
    intro c d h
    cases h
    rfl
  · simp only [hs]
    rw [Puzzles.solverStoredRatings_eq hwf hs]
    by_cases hempty : (Puzzles.solverRatings db s.id).isEmpty
    · rw [if_pos hempty]
      refine ⟨⟨fun _ => List.isEmpty_iff.mp hempty, fun _ => ⟨_, rfl⟩⟩, ?_⟩
      intro c d h
      cases h
      rfl
    · rw [if_neg hempty]
      refine ⟨⟨fun hx => ?_, fun hx => ?_⟩, ?_⟩
      · rcases hx with ⟨d, hx⟩
        cases hx
      · exact absurd (List.isEmpty_iff.mpr hx) hempty
      · intro c d h
        cases h

/-- Witness for C7 at a concrete store: unknown solver Mel 404s and
indeed has zero stored ratings. -/
theorem C7_solver_get_not_found_iff_zero_ratings_witness :
    ((∃ d, Puzzles.get_solver nmMel pdb1 = .err 404 d)
        ↔ Puzzles.solverStoredRatings pdb1 (pyTitle nmMel) = [])
    ∧ (∀ c d, Puzzles.get_solver nmMel pdb1 = .err c d → c = 404) :=
  C7_solver_get_not_found_iff_zero_ratings pdb1 nmMel
    ⟨by decide, by decide, by decide, by decide, by decide, by decide, by decide,
     by decide, by decide⟩

theorem mem_dictInsert {α : Type} {e : Name × α} {k : Name} {v : α}
    {l : List (Name × α)} (h : e ∈ dictInsert k v l) : e = (k, v) ∨ e ∈ l := by
  induction l with
  | nil => simpa [dictInsert] using h
  | cons x rest ih =>
    obtain ⟨k', v'⟩ := x
    by_cases hk : k' = k
    · simp only [dictInsert, if_pos hk, List.mem_cons] at h
      rcases h with h | h
      · exact Or.inl h
      · exact Or.inr (List.mem_cons_of_mem _ h)
    · simp only [dictInsert, if_neg hk, List.mem_cons] at h
      rcases h with h | h
      · exact Or.inr (h ▸ List.mem_cons_self _ _)
      · rcases ih h with h' | h'
        · exact Or.inl h'
        · exact Or.inr (List.mem_cons_of_mem _ h')

theorem mem_foldl_dictInsert {α β : Type} (key : β → Name) (val : β → α)
    (rs : List β) :
    ∀ (acc : List (Name × α)) (e : Name × α),
      e ∈ rs.foldl (fun a x => dictInsert (key x) (val x) a) acc →
        e ∈ acc ∨ ∃ x ∈ rs, e.1 = key x := by
  induction rs with
  | nil => intro acc e h; exact Or.inl h
  | cons x xs ih =>
    intro acc e h
    rcases ih (dictInsert (key x) (val x) acc) e h with h' | ⟨x', hx', hk⟩
    · rcases mem_dictInsert h' with h'' | h''
      · exact Or.inr ⟨x, List.mem_cons_self _ _, by rw [h'']⟩
      · exact Or.inl h''
    · exact Or.inr ⟨x', List.mem_cons_of_mem _ hx', hk⟩

/-- C5 counterexample: the canonicalization of `Board_Game_App.py`
(`parse_players_file`, `str.capitalize`) stores the two-word name
"em k" as "Em k" — the first letter of the second word is not
capitalized, unlike the word-wise `pyTitle`, so the claim that name
canonicalization capitalizes the first letter of every word fails on
this cited code. -/
theorem C5_counterexample_capitalize_not_wordwise :
    BGMem.parse_players_records [(nmEmK, [(nmHanabi, 5)])]
      = [([69, 109, 32, 107], [(nmHanabiC, 5)])]
    ∧ pyTitle nmEmK = [69, 109, 32, 75]
    ∧ ([69, 109, 32, 107] : Name) ≠ [69, 109, 32, 75] := by decide

/-- C5 as amended: `puzzles_app` canonicalizes with word-wise title
case, while `Board_Game_App` capitalizes only the first character of
the whole name; both canonicalizations are idempotent, collapse every
case variant of a name to the identical stored identity, are applied on
ingestion by the respective parse loops, and are applied to lookup
arguments before comparison. -/
theorem C5_canonicalization_amended :
    (∀ n : Name, pyTitle (pyTitle n) = pyTitle n)
  ∧ (∀ n : Name, pyCapitalize (pyCapitalize n) = pyCapitalize n)
  ∧ (∀ n m : Name, lowerEq n m → pyTitle n = pyTitle m)
  ∧ (∀ n m : Name, lowerEq n m → pyCapitalize n = pyCapitalize m)
  ∧ (∀ records e, e ∈ Puzzles.parse_solvers_records records →
      pyTitle e.1 = e.1 ∧ ∀ pr ∈ e.2, pyTitle pr.1 = pr.1)
  ∧ (∀ records e, e ∈ BGMem.parse_players_records records →
      pyCapitalize e.1 = e.1 ∧ ∀ pr ∈ e.2, pyCapitalize pr.1 = pr.1)
  ∧ (∀ (db : Puzzles.PDB) (S : Name),
      Puzzles.get_solver S db = Puzzles.get_solver (pyTitle S) db)
  ∧ (∀ (st : BGMem.App) (G P : Name),
      BGMem.get_player_rating G P st
        = BGMem.get_player_rating (pyCapitalize G) (pyCapitalize P) st) := by
  refine ⟨pyTitle_pyTitle, pyCapitalize_pyCapitalize,
    fun n m h => pyTitle_of_lowerEq h, fun n m h => pyCapitalize_of_lowerEq h,
    ?_, ?_, ?_, ?_⟩
  · intro records e he
    unfold Puzzles.parse_solvers_records at he
    rcases List.mem_map.mp he with ⟨rec, -, hrec⟩
    subst hrec
    refine ⟨pyTitle_pyTitle _, ?_⟩
    intro pr hpr
    rcases mem_foldl_dictInsert (fun x => pyTitle x.1) Prod.snd rec.2 [] pr hpr with
      h | ⟨x, -, hk⟩
    · cases h
    · rw [hk, pyTitle_pyTitle]
  · intro records e he
    unfold BGMem.parse_players_records at he
    rcases List.mem_map.mp he with ⟨rec, -, hrec⟩
    subst hrec
    refine ⟨pyCapitalize_pyCapitalize _, ?_⟩
    intro pr hpr
    rcases mem_foldl_dictInsert (fun x => pyCapitalize x.1) Prod.snd rec.2 [] pr hpr with
      h | ⟨x, -, hk⟩
    · cases h
    · rw [hk, pyCapitalize_pyCapitalize]
  · intro db S
    unfold Puzzles.get_solver
    rw [pyTitle_pyTitle]
  · intro st G P
    unfold BGMem.get_player_rating
    rw [pyCapitalize_pyCapitalize, pyCapitalize_pyCapitalize]

/-- Witness for C5: "eM" and "em" canonicalize to the same identity
under both canonicalizations. -/
theorem C5_canonicalization_amended_witness :
    pyTitle nmEM2 = pyTitle nmEm ∧ pyCapitalize nmEM2 = pyCapitalize nmEm :=
  ⟨C5_canonicalization_amended.2.2.1 nmEM2 nmEm (by decide),
   C5_canonicalization_amended.2.2.2.1 nmEM2 nmEm (by decide)⟩

namespace BGDb

theorem update_player_rating_db_eq (g p : Name) (v : Int) (st : Srv) :
    (update_player_rating g p v st).1.db = st.db := by
  unfold update_player_rating
  rcases h : st.games_by_player with _ | gbp
  · simp only [h]
  · simp only [h]
    rcases h2 : dlookup (pyCapitalize p) gbp with _ | games
    · simp only [h2]
    · simp only [h2]
      rcases h3 : dlookup (pyCapitalize g) games with _ | v0
      · simp only [h3]
      · simp only [h3]

theorem add_game_rating_db_eq (g p : Name) (v : Int) (st : Srv) :
    (add_game_rating g p v st).1.db = st.db := by
  unfold add_game_rating
  rcases h : st.games_by_player with _ | gbp
  · simp only [h]
  · simp only [h]
    rcases h2 : dlookup (pyCapitalize p) gbp with _ | games
    · simp only [h2]
    · simp only [h2]
      rcases h3 : dlookup (pyCapitalize g) games with _ | v0
      · simp only [h3]
      · simp only [h3]

theorem delete_game_rating_db_eq (g p : Name) (st : Srv) :
    (delete_game_rating g p st).1.db = st.db := by
  unfold delete_game_rating
  rcases h : st.games_by_player with _ | gbp
  · simp only [h]
  · simp only [h]
    rcases h2 : dlookup (pyCapitalize p) gbp with _ | games
    · simp only [h2]
    · simp only [h2]
      rcases h3 : dlookup (pyCapitalize g) games with _ | v0
      · simp only [h3]
      · simp only [h3]

end BGDb

/-- C9: in the denormalized database-backed iteration, `run` never
assigns `app.games_by_player`, every PATCH/POST/DELETE call on the state
`run` produces raises `AttributeError` (producing none of the documented
404/409/success outcomes), the three mutation handlers never change the
database whatever the state, and consequently everything that every GET
endpoint serves from the database is unchanged by them. -/
theorem C9_bgdb_mutations_never_touch_database :
    (∀ (input : List (Name × List (Name × Int))) (db : BGDb.DB),
      (BGDb.run input db).games_by_player = none)
  ∧ (∀ (input : List (Name × List (Name × Int))) (db : BGDb.DB) (g p : Name) (v : Int),
      BGDb.update_player_rating g p v (BGDb.run input db) = (BGDb.run input db, .attrError)
      ∧ BGDb.add_game_rating g p v (BGDb.run input db) = (BGDb.run input db, .attrError)
      ∧ BGDb.delete_game_rating g p (BGDb.run input db) = (BGDb.run input db, .attrError))
  ∧ (∀ (st : BGDb.Srv) (g p : Name) (v : Int),
      (BGDb.update_player_rating g p v st).1.db = st.db
      ∧ (BGDb.add_game_rating g p v st).1.db = st.db
      ∧ (BGDb.delete_game_rating g p st).1.db = st.db)
  ∧ (∀ (st : BGDb.Srv) (g p q q2 : Name) (v : Int),
      (BGDb.get_players (BGDb.update_player_rating g p v st).1.db = BGDb.get_players st.db
        ∧ BGDb.get_games (BGDb.update_player_rating g p v st).1.db = BGDb.get_games st.db
        ∧ BGDb.get_game_ratings q (BGDb.update_player_rating g p v st).1.db
            = BGDb.get_game_ratings q st.db
        ∧ BGDb.get_player_rating q q2 (BGDb.update_player_rating g p v st).1.db
            = BGDb.get_player_rating q q2 st.db)
      ∧ (BGDb.get_players (BGDb.add_game_rating g p v st).1.db = BGDb.get_players st.db
        ∧ BGDb.get_games (BGDb.add_game_rating g p v st).1.db = BGDb.get_games st.db
        ∧ BGDb.get_game_ratings q (BGDb.add_game_rating g p v st).1.db
            = BGDb.get_game_ratings q st.db
        ∧ BGDb.get_player_rating q q2 (BGDb.add_game_rating g p v st).1.db
            = BGDb.get_player_rating q q2 st.db)
      ∧ (BGDb.get_players (BGDb.delete_game_rating g p st).1.db = BGDb.get_players st.db
        ∧ BGDb.get_games (BGDb.delete_game_rating g p st).1.db = BGDb.get_games st.db
        ∧ BGDb.get_game_ratings q (BGDb.delete_game_rating g p st).1.db
            = BGDb.get_game_ratings q st.db
        ∧ BGDb.get_player_rating q q2 (BGDb.delete_game_rating g p st).1.db
            = BGDb.get_player_rating q q2 st.db)) := by
  refine ⟨fun input db => rfl, fun input db g p v => ⟨rfl, rfl, rfl⟩,
    fun st g p v => ⟨BGDb.update_player_rating_db_eq g p v st,
      BGDb.add_game_rating_db_eq g p v st, BGDb.delete_game_rating_db_eq g p st⟩,
    ?_⟩
  intro st g p q q2 v
  rw [BGDb.update_player_rating_db_eq g p v st, BGDb.add_game_rating_db_eq g p v st,
    BGDb.delete_game_rating_db_eq g p st]
  exact ⟨⟨rfl, rfl, rfl, rfl⟩, ⟨rfl, rfl, rfl, rfl⟩, ⟨rfl, rfl, rfl, rfl⟩⟩

namespace BGDb

theorem hasPairDup_append_of_conflict {l : List Row} {r new : Row} (hr : r ∈ l)
    (hc : rowsConflict r new = true) : hasPairDup (l ++ [new]) = true := by
  induction l with
  | nil => cases hr
  | cons x xs ih =>
    rcases List.mem_cons.mp hr with h | h
    · subst h
      simp only [List.cons_append, hasPairDup, Bool.or_eq_true]
      left
      exact List.any_eq_true.mpr ⟨new, by simp, hc⟩
    · simp only [List.cons_append, hasPairDup, Bool.or_eq_true]
      right
      exact ih h

end BGDb

/-- C2 counterexample: in `board_game_app.py`, bulk-loading the pair
(Em, Hanabi) a second time with score 9 does not upsert — the second
commit violates the `(player, game)` unique constraint, the whole load
is rolled back, and the single stored row still carries the first
score 6, not 9. -/
theorem C2_counterexample_bgdb_load_is_not_upsert :
    (BGDb.init_ratings_table [(nmEmC, [(nmHanabiC, 9)])]
        (BGDb.init_ratings_table [(nmEmC, [(nmHanabiC, 6)])] ⟨[], 0⟩)).rows
      = [⟨0, nmEmC, nmHanabiC, 6⟩]
    ∧ ¬ ∃ r ∈ (BGDb.init_ratings_table [(nmEmC, [(nmHanabiC, 9)])]
        (BGDb.init_ratings_table [(nmEmC, [(nmHanabiC, 6)])] ⟨[], 0⟩)).rows,
          r.rating = 9 := by decide

namespace Puzzles

/-- Bulk-loading one `(solver, puzzle, score)` entry into a well-formed
store leaves the pair resolving to exactly one rating row carrying that
score — overwriting in place when the pair existed, inserting
otherwise. -/
theorem add_ratings_single_upsert {db : PDB} (S I : Name) (y : Int) (hwf : WF db) :
    ∃ s p r, solverByName (add_ratings [(S, [(I, y)])] db) S = some s
      ∧ puzzleByName (add_ratings [(S, [(I, y)])] db) I = some p
      ∧ ratingsFor (add_ratings [(S, [(I, y)])] db) s.id p.id = [r]
      ∧ r.rating = y := by
  have hred : add_ratings [(S, [(I, y)])] db
      = add_rating_entry (find_or_create_solver S db).2.id I y
          (find_or_create_solver S db).1 := rfl
  rw [hred]
  have hrateq : (find_or_create_puzzle I (find_or_create_solver S db).1).1.ratings
      = db.ratings := by
    rw [focp_ratings, focs_ratings]
  unfold add_rating_entry
  rcases hrr : ratingsFor (find_or_create_puzzle I (find_or_create_solver S db).1).1
      (find_or_create_solver S db).2.id
      (find_or_create_puzzle I (find_or_create_solver S db).1).2.id with _ | ⟨r, rest⟩
  · simp only [hrr]
    refine ⟨(find_or_create_solver S db).2,
      (find_or_create_puzzle I (find_or_create_solver S db).1).2,
      ⟨(find_or_create_puzzle I (find_or_create_solver S db).1).1.nextRatingId,
       (find_or_create_solver S db).2.id,
       (find_or_create_puzzle I (find_or_create_solver S db).1).2.id, y⟩,
      ?_, ?_, ?_, rfl⟩
    · exact (solverByName_of_solvers_eq
        (focp_solvers I (find_or_create_solver S db).1) S).trans (focs_finds S db)
    · exact (puzzleByName_of_puzzles_eq rfl I).trans
        (focp_finds I (find_or_create_solver S db).1)
    · show ((find_or_create_puzzle I (find_or_create_solver S db).1).1.ratings
          ++ [(⟨(find_or_create_puzzle I (find_or_create_solver S db).1).1.nextRatingId,
              (find_or_create_solver S db).2.id,
              (find_or_create_puzzle I (find_or_create_solver S db).1).2.id, y⟩ : RatingRow)]).filter
          (pairPred (find_or_create_solver S db).2.id
            (find_or_create_puzzle I (find_or_create_solver S db).1).2.id) = _
      rw [List.filter_append]
      unfold ratingsFor at hrr
      rw [hrr]
      simp [pairPred]
  · simp only [hrr]
    have hrest : rest = [] := by
      rw [ratingsFor_of_ratings_eq hrateq] at hrr
      exact ratingsFor_tail_nil hwf hrr
    subst hrest
    refine ⟨(find_or_create_solver S db).2,
      (find_or_create_puzzle I (find_or_create_solver S db).1).2,
      { r with rating := y }, ?_, ?_, ?_, rfl⟩
    · exact (solverByName_of_solvers_eq
        (focp_solvers I (find_or_create_solver S db).1) S).trans (focs_finds S db)
    · exact (puzzleByName_of_puzzles_eq rfl I).trans
        (focp_finds I (find_or_create_solver S db).1)
    · show (replaceFirst
          (pairPred (find_or_create_solver S db).2.id
            (find_or_create_puzzle I (find_or_create_solver S db).1).2.id)
          (fun x => { x with rating := y })
          (find_or_create_puzzle I (find_or_create_solver S db).1).1.ratings).filter
          (pairPred (find_or_create_solver S db).2.id
            (find_or_create_puzzle I (find_or_create_solver S db).1).2.id)
          = [{ r with rating := y }]
      rw [filter_replaceFirst_self (by intro x; simp [pairPred])]
      unfold ratingsFor at hrr
      rw [hrr]

end Puzzles

/-- C2: as amended.  In the normalized app, the bulk loader
`add_ratings` is an idempotent upsert: loading an entry for a pair
leaves exactly one rating row for that pair holding the loaded score,
whether or not the pair was already present.  In the denormalized
`board_game_app.py`, the loader is not an upsert: when the pair is
already stored, the commit of the whole load fails on the unique
constraint and the table is left untouched, retaining the earlier
score. -/
theorem C2_bulk_load_upsert_amended :
    (∀ (db : Puzzles.PDB) (S I : Name) (y : Int), Puzzles.WF db →
      ∃ s p r, Puzzles.solverByName (Puzzles.add_ratings [(S, [(I, y)])] db) S = some s
        ∧ Puzzles.puzzleByName (Puzzles.add_ratings [(S, [(I, y)])] db) I = some p
        ∧ Puzzles.ratingsFor (Puzzles.add_ratings [(S, [(I, y)])] db) s.id p.id = [r]
        ∧ r.rating = y)
  ∧ (∀ (db : BGDb.DB) (Pn Gn : Name) (y : Int),
      (∃ r ∈ db.rows, r.player = Pn ∧ r.game = Gn) →
      BGDb.init_ratings_table [(Pn, [(Gn, y)])] db = db) := by
  constructor
  · intro db S I y hwf
    exact Puzzles.add_ratings_single_upsert S I y hwf
  · intro db Pn Gn y hex
    rcases hex with ⟨r, hr, hpl, hgm⟩
    have hpend : BGDb.pendingRows [(Pn, [(Gn, y)])] db.nextId
        = [⟨db.nextId, Pn, Gn, y⟩] := by
      simp [BGDb.pendingRows, List.enum]
    unfold BGDb.init_ratings_table
    rw [hpend]
    rw [if_pos (BGDb.hasPairDup_append_of_conflict hr
      (by simp [BGDb.rowsConflict, hpl, hgm]))]

/-- Witness for C2's amended statement: upserting (Em, Hanabi) with 9
over a store already holding it with 6, and the board-game loader
refusing the same upsert. -/
theorem C2_bulk_load_upsert_amended_witness :
    (∃ s p r, Puzzles.solverByName (Puzzles.add_ratings [(nmEmC, [(nmHanabiC, 9)])] pdb1) nmEmC = some s
      ∧ Puzzles.puzzleByName (Puzzles.add_ratings [(nmEmC, [(nmHanabiC, 9)])] pdb1) nmHanabiC = some p
      ∧ Puzzles.ratingsFor (Puzzles.add_ratings [(nmEmC, [(nmHanabiC, 9)])] pdb1) s.id p.id = [r]
      ∧ r.rating = 9)
    ∧ BGDb.init_ratings_table [(nmEmC, [(nmHanabiC, 9)])] ⟨[⟨0, nmEmC, nmHanabiC, 6⟩], 1⟩
        = ⟨[⟨0, nmEmC, nmHanabiC, 6⟩], 1⟩ :=
  ⟨C2_bulk_load_upsert_amended.1 pdb1 nmEmC nmHanabiC 9
      ⟨by decide, by decide, by decide, by decide, by decide, by decide, by decide,
       by decide, by decide⟩,
   C2_bulk_load_upsert_amended.2 ⟨[⟨0, nmEmC, nmHanabiC, 6⟩], 1⟩ nmEmC nmHanabiC 9
      ⟨⟨0, nmEmC, nmHanabiC, 6⟩, by decide, by decide, by decide⟩⟩

namespace Puzzles

/-- Uniqueness of puzzle names survives find-or-create: a row is added
only after the query-by-name came back empty. -/
theorem focp_puzzle_names_nodup {db : PDB} {n : Name}
    (h : (db.puzzles.map PuzzleRow.puzzle).Nodup) :
    ((find_or_create_puzzle n db).1.puzzles.map PuzzleRow.puzzle).Nodup := by
  rcases hq : puzzleByName db n with _ | p
  · rw [focp_of_none hq]
    simp only [List.map_append, List.map_cons, List.map_nil]
    rw [List.nodup_append]
    refine ⟨h, List.nodup_singleton n, ?_⟩
    intro a ha hb
    simp only [List.mem_singleton] at hb
    subst hb
    rcases List.mem_map.mp ha with ⟨p, hp, hname⟩
    have := List.find?_eq_none.mp hq p hp
    simp [hname] at this
  · rw [focp_of_some hq]
    exact h

/-- Uniqueness of solver names survives find-or-create. -/
theorem focs_solver_names_nodup {db : PDB} {n : Name}
    (h : (db.solvers.map SolverRow.solver).Nodup) :
    ((find_or_create_solver n db).1.solvers.map SolverRow.solver).Nodup := by
  rcases hq : solverByName db n with _ | s
  · rw [focs_of_none hq]
    simp only [List.map_append, List.map_cons, List.map_nil]
    rw [List.nodup_append]
    refine ⟨h, List.nodup_singleton n, ?_⟩
    intro a ha hb
    simp only [List.mem_singleton] at hb
    subst hb
    rcases List.mem_map.mp ha with ⟨s, hs, hname⟩
    have := List.find?_eq_none.mp hq s hs
    simp [hname] at this
  · rw [focs_of_some hq]
    exact h

theorem add_rating_entry_solvers_eq (sid : Nat) (I : Name) (y : Int) (db : PDB) :
    (add_rating_entry sid I y db).solvers = db.solvers := by
  unfold add_rating_entry
  rcases hrr : ratingsFor (find_or_create_puzzle I db).1 sid
      (find_or_create_puzzle I db).2.id with _ | ⟨r, rest⟩
  · simp only [hrr]
    exact focp_solvers I db
  · simp only [hrr]
    exact focp_solvers I db

theorem add_rating_entry_puzzle_names_nodup {db : PDB} (sid : Nat) (I : Name) (y : Int)
    (h : (db.puzzles.map PuzzleRow.puzzle).Nodup) :
    ((add_rating_entry sid I y db).puzzles.map PuzzleRow.puzzle).Nodup := by
  unfold add_rating_entry
  rcases hrr : ratingsFor (find_or_create_puzzle I db).1 sid
      (find_or_create_puzzle I db).2.id with _ | ⟨r, rest⟩
  · simp only [hrr]
    exact focp_puzzle_names_nodup h
  · simp only [hrr]
    exact focp_puzzle_names_nodup h

theorem foldl_add_rating_entry_solvers_eq (sid : Nat) (prs : List (Name × Int)) :
    ∀ db : PDB,
      (prs.foldl (fun d pr => add_rating_entry sid pr.1 pr.2 d) db).solvers = db.solvers := by
  induction prs with
  | nil => intro db; rfl
  | cons pr rest ih =>
    intro db
    simp only [List.foldl_cons]
    rw [ih, add_rating_entry_solvers_eq]

theorem foldl_add_rating_entry_puzzle_names_nodup (sid : Nat) (prs : List (Name × Int)) :
    ∀ db : PDB, (db.puzzles.map PuzzleRow.puzzle).Nodup →
      ((prs.foldl (fun d pr => add_rating_entry sid pr.1 pr.2 d) db).puzzles.map
        PuzzleRow.puzzle).Nodup := by
  induction prs with
  | nil => intro db h; exact h
  | cons pr rest ih =>
    intro db h
    simp only [List.foldl_cons]
    exact ih _ (add_rating_entry_puzzle_names_nodup sid pr.1 pr.2 h)

theorem add_solver_block_names_nodup {db : PDB} (n : Name) (prs : List (Name × Int))
    (hs : (db.solvers.map SolverRow.solver).Nodup)
    (hp : (db.puzzles.map PuzzleRow.puzzle).Nodup) :
    ((add_solver_block n prs db).solvers.map SolverRow.solver).Nodup
      ∧ ((add_solver_block n prs db).puzzles.map PuzzleRow.puzzle).Nodup := by
  unfold add_solver_block
  constructor
  · rw [foldl_add_rating_entry_solvers_eq]
    exact focs_solver_names_nodup hs
  · apply foldl_add_rating_entry_puzzle_names_nodup
    rw [focs_puzzles]
    exact hp

/-- C10 core: `add_ratings` maintains unique names for both tables. -/
theorem add_ratings_names_nodup (input : List (Name × List (Name × Int))) :
    ∀ db : PDB,
      (db.solvers.map SolverRow.solver).Nodup →
      (db.puzzles.map PuzzleRow.puzzle).Nodup →
      ((add_ratings input db).solvers.map SolverRow.solver).Nodup
        ∧ ((add_ratings input db).puzzles.map PuzzleRow.puzzle).Nodup := by
  induction input with
  | nil => intro db hs hp; exact ⟨hs, hp⟩
  | cons e rest ih =>
    intro db hs hp
    have h1 := add_solver_block_names_nodup e.1 e.2 hs hp
    exact ih _ h1.1 h1.2

end Puzzles

/-- C10: although no database uniqueness constraint covers the
`solvers.solver` and `puzzles.puzzle` name columns, both the bulk load
and the single-create endpoint preserve the invariant that at most one
row exists per name, purely through their query-first-then-create
pattern. -/
theorem C10_name_uniqueness_preserved :
    ∀ db : Puzzles.PDB,
      (db.solvers.map Puzzles.SolverRow.solver).Nodup →
      (db.puzzles.map Puzzles.PuzzleRow.puzzle).Nodup →
      (∀ (P S : Name) (v : Int),
        (((Puzzles.add_puzzle_rating P S v db).1.solvers.map
            Puzzles.SolverRow.solver).Nodup)
        ∧ (((Puzzles.add_puzzle_rating P S v db).1.puzzles.map
            Puzzles.PuzzleRow.puzzle).Nodup))
      ∧ (∀ input,
        (((Puzzles.add_ratings input db).solvers.map Puzzles.SolverRow.solver).Nodup)
        ∧ (((Puzzles.add_ratings input db).puzzles.map Puzzles.PuzzleRow.puzzle).Nodup)) := by
  intro db hs hp
  constructor
  · intro P S v
    unfold Puzzles.add_puzzle_rating
    by_cases hc : (Puzzles.ratingsFor
        (Puzzles.find_or_create_solver (pyTitle S) (Puzzles.find_or_create_puzzle (pyTitle P) db).1).1
        (Puzzles.find_or_create_solver (pyTitle S) (Puzzles.find_or_create_puzzle (pyTitle P) db).1).2.id
        (Puzzles.find_or_create_puzzle (pyTitle P) db).2.id).isEmpty
    · rw [if_pos hc]
      constructor
      · show ((Puzzles.find_or_create_solver (pyTitle S)
            (Puzzles.find_or_create_puzzle (pyTitle P) db).1).1.solvers.map
              Puzzles.SolverRow.solver).Nodup
        apply Puzzles.focs_solver_names_nodup
        rw [Puzzles.focp_solvers]
        exact hs
      · show ((Puzzles.find_or_create_solver (pyTitle S)
            (Puzzles.find_or_create_puzzle (pyTitle P) db).1).1.puzzles.map
              Puzzles.PuzzleRow.puzzle).Nodup
        rw [Puzzles.focs_puzzles]
        exact Puzzles.focp_puzzle_names_nodup hp
    · rw [if_neg hc]
      constructor
      · show ((Puzzles.find_or_create_solver (pyTitle S)
            (Puzzles.find_or_create_puzzle (pyTitle P) db).1).1.solvers.map
              Puzzles.SolverRow.solver).Nodup
        apply Puzzles.focs_solver_names_nodup
        rw [Puzzles.focp_solvers]
        exact hs
      · show ((Puzzles.find_or_create_solver (pyTitle S)
            (Puzzles.find_or_create_puzzle (pyTitle P) db).1).1.puzzles.map
              Puzzles.PuzzleRow.puzzle).Nodup
        rw [Puzzles.focs_puzzles]
        exact Puzzles.focp_puzzle_names_nodup hp
  · intro input
    exact Puzzles.add_ratings_names_nodup input db hs hp

/-- Witness for C10: both mutations keep names unique on the concrete
one-rating store. -/
theorem C10_name_uniqueness_preserved_witness :
    ((((Puzzles.add_puzzle_rating nmMel nmMel 3 pdb1).1.solvers.map
        Puzzles.SolverRow.solver).Nodup)
      ∧ (((Puzzles.add_puzzle_rating nmMel nmMel 3 pdb1).1.puzzles.map
        Puzzles.PuzzleRow.puzzle).Nodup))
    ∧ ((((Puzzles.add_ratings [(nmMelC, [(nmHanabiC, 4)])] pdb1).solvers.map
        Puzzles.SolverRow.solver).Nodup)
      ∧ (((Puzzles.add_ratings [(nmMelC, [(nmHanabiC, 4)])] pdb1).puzzles.map
        Puzzles.PuzzleRow.puzzle).Nodup)) :=
  ⟨(C10_name_uniqueness_preserved pdb1 (by decide) (by decide)).1 nmMel nmMel 3,
   (C10_name_uniqueness_preserved pdb1 (by decide) (by decide)).2 [(nmMelC, [(nmHanabiC, 4)])]⟩

namespace Puzzles

theorem puzzleNameOf_eq_of_pid {db : PDB} (hwf : WF db) {r : RatingRow} {p : PuzzleRow}
    (hr : r ∈ db.ratings) (hp : p ∈ db.puzzles) (hid : r.puzzle_id = p.id) :
    puzzleNameOf db r = p.puzzle := by
  obtain ⟨p0, hp0, hid0, hn0⟩ := puzzleNameOf_spec hwf hr
  have hpp : p0 = p :=
    List.inj_on_of_nodup_map hwf.puzzleIdsNodup hp0 hp (by omega)
  rw [hn0, hpp]

theorem rating_pid_eq_of_name {db : PDB} (hwf : WF db) {r : RatingRow} {p : PuzzleRow}
    (hr : r ∈ db.ratings) (hp : p ∈ db.puzzles)
    (hname : puzzleNameOf db r = p.puzzle) : r.puzzle_id = p.id := by
  obtain ⟨p0, hp0, hid0, hn0⟩ := puzzleNameOf_spec hwf hr
  have hpp : p0 = p := by
    apply List.inj_on_of_nodup_map hwf.puzzleNamesNodup hp0 hp
    rw [← hn0, hname]
  subst hpp
  omega

theorem no_rating_named_of_puzzleByName_none {db : PDB} (hwf : WF db) {N : Name}
    {r : RatingRow} (hnone : puzzleByName db N = none) (hr : r ∈ db.ratings)
    (hname : puzzleNameOf db r = N) : False := by
  obtain ⟨p0, hp0, hid0, hn0⟩ := puzzleNameOf_spec hwf hr
  have hno := List.find?_eq_none.mp hnone p0 hp0
  rw [hn0] at hname
  simp [hname] at hno

end Puzzles

/-- C6 counterexample: in `Board_Game_App.py`, after startup on one
record (Em rates Hanabi 8) and `delete_game_rating("hanabi", "em")`,
`get_games` still lists Hanabi (the startup-computed `all_player_games`
is never maintained by mutations) while `get_game_ratings("hanabi")`
succeeds with the empty mapping — so `listItems()` is not the set of
items with a non-empty `ratingsForItem`. -/
theorem C6_counterexample_stale_games_list :
    nmHanabiC ∈ BGMem.get_games c6st1
    ∧ BGMem.get_game_ratings nmHanabi c6st1 = .ok [] := by decide

namespace Puzzles

/-- In the normalized app, the keys of the aggregate puzzle listing are
exactly the (canonical) names on which the per-puzzle query succeeds
with a non-empty mapping. -/
theorem get_puzzles_keys_iff {db : PDB} (hwf : WF db) {N : Name} (hcanon : pyTitle N = N) :
    (N ∈ (get_puzzles db).map Prod.fst)
      ↔ ∃ m, get_puzzle_ratings N db = .ok m ∧ m ≠ [] := by
  have hkeys : (N ∈ (get_puzzles db).map Prod.fst)
      ↔ ∃ r ∈ db.ratings, puzzleNameOf db r = N := by
    have h := mem_keys_foldl_dictAppend (puzzleNameOf db) (fun r => r.rating)
      db.ratings N []
    unfold get_puzzles
    simpa using h
  unfold get_puzzle_ratings
  simp only [hcanon]
  rcases hp : puzzleByName db N with _ | p
  · simp only [hp]
    rw [hkeys]
    constructor
    · rintro ⟨r, hr, hname⟩
      exact (no_rating_named_of_puzzleByName_none hwf hp hr hname).elim
    · rintro ⟨m, hm, -⟩
      cases hm
  · simp only [hp]
    have hpspec := puzzleByName_spec hp
    by_cases hempty : (puzzleRatings db p.id).isEmpty
    · rw [if_pos hempty]
      rw [hkeys]
      constructor
      · rintro ⟨r, hr, hname⟩
        have hpid : r.puzzle_id = p.id :=
          rating_pid_eq_of_name hwf hr hpspec.1 (by rw [hname, hpspec.2])
        have : r ∈ puzzleRatings db p.id := mem_puzzleRatings.mpr ⟨hr, hpid⟩
        rw [List.isEmpty_iff.mp hempty] at this
        cases this
      · rintro ⟨m, hm, -⟩
        cases hm
    · rw [if_neg hempty]
      have hne : puzzleRatings db p.id ≠ [] := by
        intro hx
        exact hempty (List.isEmpty_iff.mpr hx)
      apply iff_of_true
      · rw [hkeys]
        rcases List.exists_mem_of_ne_nil _ hne with ⟨r, hr⟩
        rcases mem_puzzleRatings.mp hr with ⟨hrmem, hrpid⟩
        refine ⟨r, hrmem, ?_⟩
        rw [puzzleNameOf_eq_of_pid hwf hrmem hpspec.1 hrpid, hpspec.2]
      · have heq := foldl_dictInsert_of_nodup (solverNameOf db) (fun r => r.rating)
          (nodup_solverNames_puzzleRatings hwf p.id) [] (by simp)
        refine ⟨_, rfl, ?_⟩
        rw [heq]
        simp only [List.nil_append, ne_eq, List.map_eq_nil_iff]
        exact hne
  
/-- In the normalized app, the per-solver mapping agrees pointwise with
the single-rating query. -/
theorem get_solver_consistent {db : PDB} (hwf : WF db) {S : Name}
    {m : List (Name × Int)} (hm : get_solver S db = .ok m) :
    ∀ (N : Name) (v : Int), pyTitle N = N →
      ((N, v) ∈ m ↔ get_solver_rating N S db = .ok v) := by
  unfold get_solver at hm
  rcases hs : solverByName db (pyTitle S) with _ | s
  · simp only [hs] at hm
    cases hm
  · simp only [hs] at hm
    by_cases hempty : (solverRatings db s.id).isEmpty
    · rw [if_pos hempty] at hm
      cases hm
    · rw [if_neg hempty] at hm
      have hmm : m = (solverRatings db s.id).map (fun r => (puzzleNameOf db r, r.rating)) := by
        have heq := foldl_dictInsert_of_nodup (puzzleNameOf db) (fun r => r.rating)
          (nodup_puzzleNames_solverRatings hwf s.id) [] (by simp)
        injection hm with hm'
        rw [← hm', heq]
        simp
      intro N v hcanon
      rw [hmm, List.mem_map]
      unfold get_solver_rating
      simp only [hs, hcanon]
      rcases hp : puzzleByName db N with _ | p
      · simp only [hp]
        constructor
        · rintro ⟨r, hr, hpair⟩
          rw [Prod.mk.injEq] at hpair
          rcases mem_solverRatings.mp hr with ⟨hrmem, -⟩
          exact (no_rating_named_of_puzzleByName_none hwf hp hrmem hpair.1).elim
        · intro h
          cases h
      · simp only [hp]
        have hpspec := puzzleByName_spec hp
        rcases hrr : ratingsFor db s.id p.id with _ | ⟨r0, rest⟩
        · simp only [hrr]
          constructor
          · rintro ⟨r, hr, hpair⟩
            rw [Prod.mk.injEq] at hpair
            rcases mem_solverRatings.mp hr with ⟨hrmem, hrsid⟩
            have hpid : r.puzzle_id = p.id :=
              rating_pid_eq_of_name hwf hrmem hpspec.1 (by rw [hpair.1, hpspec.2])
            have : r ∈ ratingsFor db s.id p.id := mem_ratingsFor.mpr ⟨hrmem, hrsid, hpid⟩
            rw [hrr] at this
            cases this
          · intro h
            cases h
        · simp only [hrr]
          have hrest : rest = [] := ratingsFor_tail_nil hwf hrr
          subst hrest
          have hr0 : r0 ∈ ratingsFor db s.id p.id := by
            rw [hrr]
            exact List.mem_singleton.mpr rfl
          rcases mem_ratingsFor.mp hr0 with ⟨hr0mem, hr0sid, hr0pid⟩
          constructor
          · rintro ⟨r, hr, hpair⟩
            rw [Prod.mk.injEq] at hpair
            rcases mem_solverRatings.mp hr with ⟨hrmem, hrsid⟩
            have hpid : r.puzzle_id = p.id :=
              rating_pid_eq_of_name hwf hrmem hpspec.1 (by rw [hpair.1, hpspec.2])
            have hmem : r ∈ ratingsFor db s.id p.id := mem_ratingsFor.mpr ⟨hrmem, hrsid, hpid⟩
            rw [hrr] at hmem
            have hrr0 : r = r0 := List.mem_singleton.mp hmem
            rw [← hrr0, hpair.2]
          · intro h
            injection h with h'
            refine ⟨r0, mem_solverRatings.mpr ⟨hr0mem, hr0sid⟩, ?_⟩
            rw [Prod.mk.injEq]
            refine ⟨?_, h'⟩
            rw [puzzleNameOf_eq_of_pid hwf hr0mem hpspec.1 hr0pid, hpspec.2]

end Puzzles

/-- C6 as amended: in the normalized database-backed app, aggregate
listings agree with point queries in every well-formed state — the keys
of `get_puzzles` are exactly the puzzles on which `get_puzzle_ratings`
succeeds non-emptily, and a successful `get_solver` mapping contains
`(item, score)` exactly when `get_solver_rating` returns that score.
(The in-memory `Board_Game_App` violates the claim through its stale
startup-computed games list.) -/
theorem C6_aggregate_point_consistency_amended :
    (∀ (db : Puzzles.PDB) (N : Name), Puzzles.WF db → pyTitle N = N →
      (N ∈ (Puzzles.get_puzzles db).map Prod.fst
        ↔ ∃ m, Puzzles.get_puzzle_ratings N db = .ok m ∧ m ≠ []))
  ∧ (∀ (db : Puzzles.PDB) (S : Name) (m : List (Name × Int)), Puzzles.WF db →
      Puzzles.get_solver S db = .ok m →
      ∀ (N : Name) (v : Int), pyTitle N = N →
        ((N, v) ∈ m ↔ Puzzles.get_solver_rating N S db = .ok v)) :=
  ⟨fun _ _ hwf hcanon => Puzzles.get_puzzles_keys_iff hwf hcanon,
   fun _ _ _ hwf hm => Puzzles.get_solver_consistent hwf hm⟩

/-- Witness for C6's amended statement on the concrete one-rating store. -/
theorem C6_aggregate_point_consistency_amended_witness :
    (nmHanabiC ∈ (Puzzles.get_puzzles pdb1).map Prod.fst
      ↔ ∃ m, Puzzles.get_puzzle_ratings nmHanabiC pdb1 = .ok m ∧ m ≠ [])
    ∧ ((nmHanabiC, 8) ∈ [(nmHanabiC, (8 : Int))]
      ↔ Puzzles.get_solver_rating nmHanabiC nmEmC pdb1 = .ok 8) :=
  ⟨C6_aggregate_point_consistency_amended.1 pdb1 nmHanabiC
      ⟨by decide, by decide, by decide, by decide, by decide, by decide, by decide,
       by decide, by decide⟩ (by decide),
   C6_aggregate_point_consistency_amended.2 pdb1 nmEmC [(nmHanabiC, 8)]
      ⟨by decide, by decide, by decide, by decide, by decide, by decide, by decide,
       by decide, by decide⟩ (by decide) nmHanabiC 8 (by decide)⟩
